import Mathlib

/-!
Verification development for the channel-manager template pipeline.

The JavaScript sources (src/src/modules/textParser.js, src/src/modules/serverBuilder.js,
src/index.js) are shallowly embedded below.  JavaScript strings are modelled as Lean
`String` (a list of characters); all string operations used by the code are implemented
from first principles on `List Char` so that they are executable and amenable to proof.
Regular-expression uses in the source are small and fixed, and are embedded as explicit
scanning functions with the same matching semantics on the inputs the pipeline handles
(single-line, ASCII-centred text; character classes `\s`, `\w`, `\p{L}`, `\p{N}` are
modelled by the corresponding ASCII character predicates).
-/

namespace ChannelManager

/-- Word characters for the `\w` regex class (ASCII letters, digits, underscore). -/
def isWordChar (c : Char) : Bool :=
  c.isAlpha || c.isDigit || c == '_'

/-- Whitespace test for the `\s` regex class and JS `trim`. -/
def isWs (c : Char) : Bool :=
  c.isWhitespace

/-- Hexadecimal digit test for the `[0-9a-fA-F]` class. -/
def isHexChar (c : Char) : Bool :=
  c.isDigit || (('a' ≤ c.toLower) && (c.toLower ≤ 'f'))

/-- Numeric value of a hexadecimal digit character. -/
def hexVal (c : Char) : Nat :=
  if c.isDigit then c.toNat - '0'.toNat else c.toLower.toNat - 'a'.toNat + 10

/-- Value of a list of hexadecimal digit characters, most significant first. -/
def hexToNat (l : List Char) : Nat :=
  l.foldl (fun acc c => acc * 16 + hexVal c) 0

/-- Value of a list of decimal digit characters, most significant first. -/
def digitsToNat (l : List Char) : Nat :=
  l.foldl (fun acc c => acc * 10 + (c.toNat - '0'.toNat)) 0

/-- Drop whitespace at the end of a character list (JS `trimEnd`). -/
def trimEndList (l : List Char) : List Char :=
  (l.reverse.dropWhile isWs).reverse

/-- Drop whitespace at both ends (JS `trim`). -/
def trimList (l : List Char) : List Char :=
  trimEndList (l.dropWhile isWs)

/-- JS `String.prototype.trim`. -/
def jsTrim (s : String) : String :=
  ⟨trimList s.data⟩

/-- JS `String.prototype.trimEnd`. -/
def jsTrimEnd (s : String) : String :=
  ⟨trimEndList s.data⟩

/-- JS `String.prototype.toLowerCase` (ASCII case folding). -/
def jsToLower (s : String) : String :=
  ⟨s.data.map Char.toLower⟩

/-- Test whether `pat` is an initial segment of `l` (case sensitive). -/
def startsWithList (pat : List Char) : List Char → Bool
  | [] => pat.isEmpty
  | c :: cs =>
    match pat with
    | [] => true
    | p :: ps => p == c && startsWithList ps cs

/-- Consume `pat` case-insensitively from the front of `l`; return the consumed
original characters and the remainder. -/
def consumeCI (pat : List Char) (l : List Char) : Option (List Char × List Char) :=
  match pat, l with
  | [], l => some ([], l)
  | _ :: _, [] => none
  | p :: ps, c :: cs =>
    if p.toLower == c.toLower then
      match consumeCI ps cs with
      | some (m, r) => some (c :: m, r)
      | none => none
    else none

/-- Test whether `l` contains `pat` as a substring, case-insensitively. -/
def containsCI (pat : List Char) : List Char → Bool
  | [] => (consumeCI pat []).isSome
  | c :: cs => (consumeCI pat (c :: cs)).isSome || containsCI pat cs

/-- Scan every suffix of the input with matcher `f`, returning the first hit
(models an unanchored regex search). -/
def scanFirst {α : Type} (f : List Char → Option α) : List Char → Option α
  | [] => f []
  | c :: cs =>
    match f (c :: cs) with
    | some r => some r
    | none => scanFirst f cs

/-- Scan every suffix of the input, removing the first match.  The matcher
returns the remainder following the matched span (models `replace(re, '')`
for a regex with no empty match). -/
def scanRemove (f : List Char → Option (List Char)) : List Char → List Char
  | [] =>
    match f [] with
    | some rest => rest
    | none => []
  | c :: cs =>
    match f (c :: cs) with
    | some rest => rest
    | none => c :: scanRemove f cs

/-- Replace the first occurrence of the literal `needle` by `repl` (JS
`replace` with a string pattern).  An empty needle matches at position 0. -/
def replaceFirstList (needle repl : List Char) : List Char → List Char
  | [] => if needle.isEmpty then repl else []
  | c :: cs =>
    if startsWithList needle (c :: cs) then repl ++ (c :: cs).drop needle.length
    else c :: replaceFirstList needle repl cs

/-- Worker for `collapseRuns`; the flag records whether the previous character
was part of the current run. -/
def collapseRunsAux (p : Char → Bool) (rep : Char) : Bool → List Char → List Char
  | _, [] => []
  | inRun, c :: cs =>
    if p c then
      if inRun then collapseRunsAux p rep true cs else rep :: collapseRunsAux p rep true cs
    else c :: collapseRunsAux p rep false cs

/-- Collapse every maximal run of characters satisfying `p` to the single
character `rep` (models `replace(/X+/g, rep)` for a one-class regex). -/
def collapseRuns (p : Char → Bool) (rep : Char) (l : List Char) : List Char :=
  collapseRunsAux p rep false l

/-- Replace every run of two or more whitespace characters by a single space,
leaving single whitespace characters unchanged (JS `replace(/\s{2,}/g, ' ')`).
Runs with fuel bounded by the list length. -/
def collapseMultiWs : Nat → List Char → List Char
  | 0, l => l
  | _ + 1, [] => []
  | fuel + 1, c :: cs =>
    if isWs c then
      match cs with
      | c2 :: _ =>
        if isWs c2 then ' ' :: collapseMultiWs fuel (cs.dropWhile isWs)
        else c :: collapseMultiWs fuel cs
      | [] => [c]
    else c :: collapseMultiWs fuel cs

/-- Remainder after the first `)` if one occurs before a newline (the `.`
class of the regex does not cross a newline). -/
def findCloseParen : List Char → Option (List Char)
  | [] => none
  | c :: cs =>
    if c == ')' then some cs
    else if c == '\n' then none
    else findCloseParen cs

/-- Remove every non-greedy parenthesised group, modelling
`replace(/\(.*?\)/g, '')`: from each `(` with a matching `)` later on the
same line, the span through that `)` is removed; a `(` with no `)` before
the end of line is kept.  Fuelled by the list length. -/
def stripParensAux : Nat → List Char → List Char
  | 0, l => l
  | _ + 1, [] => []
  | fuel + 1, c :: cs =>
    if c == '(' then
      match findCloseParen cs with
      | some rest => stripParensAux fuel rest
      | none => c :: stripParensAux fuel cs
    else c :: stripParensAux fuel cs

/-- JS `p.replace(/\(.*?\)/g, '')` on a string. -/
def stripParens (s : String) : String :=
  ⟨stripParensAux s.data.length s.data⟩

/-- Character folding of `normalizeLine` in textParser.js: byte-order marks and
zero-width spaces are dropped, a non-breaking space becomes an ordinary space,
a family of box-drawing/vertical-bar glyphs folds to the ASCII pipe, and em/en
dashes fold to a hyphen. -/
def normalizeChar (c : Char) : Option Char :=
  if c == '\uFEFF' || c == '\u200B' then none
  else if c == '\u00A0' then some ' '
  else if c == '│' || c == '┃' || c == '┆' || c == '┊' || c == '┇' || c == '┋' ||
          c == '｜' || c == '¦' then some '|'
  else if c == '–' || c == '—' then some '-'
  else some c

/-- The `normalizeLine` helper of textParser.js. -/
def normalizeLine (s : String) : String :=
  ⟨s.data.filterMap normalizeChar⟩

/-- Split on `'\n'` (worker on character lists). -/
def splitNlAux : List Char → List (List Char)
  | [] => [[]]
  | c :: cs =>
    if c == '\n' then [] :: splitNlAux cs
    else
      match splitNlAux cs with
      | [] => [[c]]
      | l :: ls => (c :: l) :: ls

/-- Drop a single carriage return at the end of a line. -/
def dropTrailingCR (l : List Char) : List Char :=
  match l.reverse with
  | '\r' :: rest => rest.reverse
  | _ => l

/-- JS `raw.split(/\r?\n/)`.  (A carriage return left at the very end of the
last line by the JS semantics is removed here as well; the parser immediately
applies `trimEnd`, so the two readings are observationally identical.) -/
def splitLines (s : String) : List String :=
  (splitNlAux s.data).map (fun l => ⟨dropTrailingCR l⟩)

/-- Matcher at one position for `/color:\s*#/i` (the `isRoleLine` test). -/
def colorHashAt (l : List Char) : Option Unit :=
  match consumeCI "color:".data l with
  | some (_, rest) =>
    match rest.dropWhile isWs with
    | '#' :: _ => some ()
    | _ => none
  | none => none

/-- The `isRoleLine` helper of textParser.js: `/color:\s*#/i.test(line)`. -/
def isRoleLine (line : String) : Bool :=
  (scanFirst colorHashAt line.data).isSome

/-- Take exactly `n` hexadecimal digits from the front of a list. -/
def takeHexDigits : Nat → List Char → Option (List Char × List Char)
  | 0, l => some ([], l)
  | _ + 1, [] => none
  | n + 1, c :: cs =>
    if isHexChar c then
      match takeHexDigits n cs with
      | some (h, r) => some (c :: h, r)
      | none => none
    else none

/-- Matcher at one position for `/color:\s*(#[0-9a-fA-F]{6})/i`; yields the
whole matched span (original characters) and the capture group. -/
def colorMatchAt (l : List Char) : Option (List Char × List Char) :=
  match consumeCI "color:".data l with
  | none => none
  | some (m, rest) =>
    let wsRun := rest.takeWhile isWs
    match rest.dropWhile isWs with
    | '#' :: rest2 =>
      match takeHexDigits 6 rest2 with
      | some (hex, _) => some (m ++ wsRun ++ '#' :: hex, '#' :: hex)
      | none => none
    | _ => none

/-- First match of `/color:\s*(#[0-9a-fA-F]{6})/i` in a line. -/
def findColorMatch (line : String) : Option (String × String) :=
  match scanFirst colorMatchAt line.data with
  | some (whole, cap) => some (⟨whole⟩, ⟨cap⟩)
  | none => none

/-- Matcher at one position for `/permissions:\s*\[([^\]]*)\]/i`; yields the
bracket contents and the remainder after the match. -/
def permsBlockAt (l : List Char) : Option (List Char × List Char) :=
  match consumeCI "permissions:".data l with
  | none => none
  | some (_, rest) =>
    match rest.dropWhile isWs with
    | '[' :: rest2 =>
      let inner := rest2.takeWhile (fun c => c != ']')
      match rest2.dropWhile (fun c => c != ']') with
      | ']' :: after => some (inner, after)
      | _ => none
    | _ => none

/-- JS `line.replace(/Permissions:\s*\[[^\]]*\]/i, '')`. -/
def removePermsBlock (line : String) : String :=
  ⟨scanRemove (fun l => (permsBlockAt l).map (·.2)) line.data⟩

/-- Split a character list at commas (JS `String.prototype.split(',')`). -/
def splitCommaAux : List Char → List (List Char)
  | [] => [[]]
  | c :: cs =>
    if c == ',' then [] :: splitCommaAux cs
    else
      match splitCommaAux cs with
      | [] => [[c]]
      | l :: ls => (c :: l) :: ls

/-- The `extractPermissions` helper of textParser.js: capture the first
`Permissions: [ ... ]` block, split on commas, trim, drop empties. -/
def extractPermissions (line : String) : List String :=
  match scanFirst permsBlockAt line.data with
  | none => []
  | some (inner, _) =>
    ((splitCommaAux inner).map (fun p => trimList p)).filterMap
      (fun p => if p.isEmpty then none else some (⟨p⟩ : String))

/-- Permission bit of a canonical discord.js v14 `PermissionFlagsBits` name
(the library dependency of both textParser.js and serverBuilder.js); `0` for
an unknown name.  Values are the platform's documented `1n << kn` constants. -/
def flagBit (name : String) : Nat :=
  if name = "CreateInstantInvite" then 1
  else if name = "KickMembers" then 2
  else if name = "BanMembers" then 4
  else if name = "Administrator" then 8
  else if name = "ManageChannels" then 16
  else if name = "ManageGuild" then 32
  else if name = "AddReactions" then 64
  else if name = "ViewAuditLog" then 128
  else if name = "PrioritySpeaker" then 256
  else if name = "Stream" then 512
  else if name = "ViewChannel" then 1024
  else if name = "SendMessages" then 2048
  else if name = "SendTTSMessages" then 4096
  else if name = "ManageMessages" then 8192
  else if name = "EmbedLinks" then 16384
  else if name = "AttachFiles" then 32768
  else if name = "ReadMessageHistory" then 65536
  else if name = "MentionEveryone" then 131072
  else if name = "UseExternalEmojis" then 262144
  else if name = "ViewGuildInsights" then 524288
  else if name = "Connect" then 1048576
  else if name = "Speak" then 2097152
  else if name = "MuteMembers" then 4194304
  else if name = "DeafenMembers" then 8388608
  else if name = "MoveMembers" then 16777216
  else if name = "UseVAD" then 33554432
  else if name = "ChangeNickname" then 67108864
  else if name = "ManageNicknames" then 134217728
  else if name = "ManageRoles" then 268435456
  else if name = "ManageWebhooks" then 536870912
  else if name = "ManageEmojisAndStickers" then 1073741824
  else if name = "UseApplicationCommands" then 2147483648
  else if name = "RequestToSpeak" then 4294967296
  else if name = "ManageEvents" then 8589934592
  else if name = "ManageThreads" then 17179869184
  else if name = "CreatePublicThreads" then 34359738368
  else if name = "CreatePrivateThreads" then 68719476736
  else if name = "UseExternalStickers" then 137438953472
  else if name = "SendMessagesInThreads" then 274877906944
  else if name = "UseEmbeddedActivities" then 549755813888
  else if name = "ModerateMembers" then 1099511627776
  else 0

/-- Test whether a string is a canonical `PermissionFlagsBits` flag name
(every flag has a nonzero bit). -/
def isFlagName (name : String) : Bool :=
  flagBit name != 0

/-- The normalization applied to each permission token inside
`permissionsToBitfield`: `p.replace(/\(.*?\)/g, '').trim().toLowerCase()`. -/
def permNorm (p : String) : String :=
  jsToLower (jsTrim (stripParens p))

/-- The `switch` table of `permissionsToBitfield` in textParser.js: the flag
names pushed for one normalized token (at most one; unrecognized tokens push
nothing). -/
def matchPerm (norm : String) : List String :=
  if norm = "administrator" || norm = "manage server" then ["Administrator"]
  else if norm = "manage roles" then ["ManageRoles"]
  else if norm = "manage channels" then ["ManageChannels"]
  else if norm = "manage webhooks" then ["ManageWebhooks"]
  else if norm = "manage emojis" || norm = "manage emojis and stickers" then
    ["ManageEmojisAndStickers"]
  else if norm = "ban members" then ["BanMembers"]
  else if norm = "kick members" then ["KickMembers"]
  else if norm = "view audit log" then ["ViewAuditLog"]
  else if norm = "manage messages" then ["ManageMessages"]
  else if norm = "manage threads" then ["ManageThreads"]
  else if norm = "mention everyone" then ["MentionEveryone"]
  else if norm = "timeout members" || norm = "moderate members" || norm = "mute members" then
    ["ModerateMembers"]
  else if norm = "priority speaker" then ["PrioritySpeaker"]
  else if norm = "send messages" then ["SendMessages"]
  else if norm = "read message history" then ["ReadMessageHistory"]
  else if norm = "view channel" || norm = "read channels" then ["ViewChannel"]
  else if norm = "connect" then ["Connect"]
  else if norm = "speak" then ["Speak"]
  else if norm = "stream" then ["Stream"]
  else if norm = "use voice activity" then ["UseVAD"]
  else if norm = "embed links" then ["EmbedLinks"]
  else if norm = "attach files" then ["AttachFiles"]
  else if norm = "use external emojis" then ["UseExternalEmojis"]
  else if norm = "use external stickers" then ["UseExternalStickers"]
  else if norm = "use application commands" then ["UseApplicationCommands"]
  else if norm = "add reactions" then ["AddReactions"]
  else if norm = "manage events" then ["ManageEvents"]
  else if norm = "change nickname" then ["ChangeNickname"]
  else if norm = "move members" then ["MoveMembers"]
  else []

/-- The `permissionsToBitfield` function of textParser.js: tokens are
normalized and looked up in the synonym table, producing a list of canonical
flag names (`mapped`); `new PermissionsBitField(mapped)` then resolves each
name to its bit and takes the bitwise OR. -/
def permissionsToBitfield (perms : List String) : Nat :=
  let mapped := perms.foldl (fun acc p => acc ++ matchPerm (permNorm p)) []
  mapped.foldl (fun acc f => acc ||| flagBit f) 0

/-- ChannelOverwrite of the Template data model: a per-channel, per-role
allow/deny permission pair with bit values serialized as decimal strings. -/
structure ChannelOverwrite where
  roleRefId : String
  allow : String
  deny : String
deriving Repr, DecidableEq

/-- Channel `type` values as they occur in JS: either a numeric platform enum
value or a string such as `"text"` / `"voice"`. -/
inductive ChType
  | num (n : Nat)
  | str (s : String)
deriving Repr, DecidableEq

/-- ChannelSpec of the Template data model.  Optional fields model JS
properties that a producer may leave absent (`undefined`): the text parser
sets `topic` and `privateFlag` (the JS `private` key) but not `nsfw` or
`slowmode`; the guild extractor sets all of them. -/
structure ChannelSpec where
  name : String
  type : ChType
  topic : Option String := none
  nsfw : Option Bool := none
  slowmode : Option Nat := none
  overwrites : Option (List ChannelOverwrite) := none
  privateFlag : Option Bool := none
deriving Repr, DecidableEq

/-- CategorySpec of the Template data model. -/
structure CategorySpec where
  name : String
  channels : List ChannelSpec
deriving Repr, DecidableEq

/-- RoleSpec of the Template data model.  `position` is the extra key emitted
only by the guild extractor. -/
structure RoleSpec where
  refId : String
  name : String
  color : Nat
  hoist : Bool
  mentionable : Bool
  permissions : String
  position : Option Nat := none
  isEveryone : Bool
deriving Repr, DecidableEq

/-- Template, the root artifact of the pipeline. -/
structure Template where
  roles : List RoleSpec
  categories : List CategorySpec
  summary : String
deriving Repr, DecidableEq

/-- Matcher at one position for `/#\S+/` (a hash followed by non-space). -/
def hashNonWsAt : List Char → Option Unit
  | '#' :: c :: _ => if isWs c then none else some ()
  | _ => none

/-- Matcher at one position for `/type:\s*(text|voice)/i`. -/
def typeTextVoiceAt (l : List Char) : Option Unit :=
  match consumeCI "type:".data l with
  | some (_, rest) =>
    let r := rest.dropWhile isWs
    if (consumeCI "text".data r).isSome || (consumeCI "voice".data r).isSome then some ()
    else none
  | none => none

/-- Matcher at one position for `/type:\s*voice/i`. -/
def typeVoiceAt (l : List Char) : Option Unit :=
  match consumeCI "type:".data l with
  | some (_, rest) =>
    if (consumeCI "voice".data (rest.dropWhile isWs)).isSome then some () else none
  | none => none

/-- Word-boundary scan for `/\bvoice\b/i`; `prev` is the character before the
current position. -/
def wordVoiceScan (prev : Option Char) : List Char → Bool
  | [] => false
  | c :: cs =>
    ((match prev with
      | none => true
      | some p => !isWordChar p) &&
     (match consumeCI "voice".data (c :: cs) with
      | some (_, rest) =>
        match rest with
        | [] => true
        | r :: _ => !isWordChar r
      | none => false)) ||
    wordVoiceScan (some c) cs

/-- JS `/\bvoice\b/i.test(s)`. -/
def hasVoiceWord (s : String) : Bool :=
  wordVoiceScan none s.data

/-- The `looksLikeChannel` helper of textParser.js. -/
def looksLikeChannel (line : String) : Bool :=
  let normalized := normalizeLine line
  let hasPipe := normalized.data.any (fun c => c == '|')
  let hasHash := (scanFirst hashNonWsAt normalized.data).isSome
  let hasType := (scanFirst typeTextVoiceAt normalized.data).isSome
  hasPipe || hasHash || hasType || hasVoiceWord normalized

/-- Characters kept by the slug class `[\p{L}\p{N}\s_-]` (ASCII reading). -/
def keepSlugChar (c : Char) : Bool :=
  c.isAlpha || c.isDigit || isWs c || c == '_' || c == '-'

/-- The `slugifyPreserve` helper of textParser.js. -/
def slugifyPreserve (str : String) : String :=
  if str.data.isEmpty then "channel"
  else
    let normalized := (normalizeLine str).data.map (fun c => if keepSlugChar c then c else ' ')
    let s1 := collapseRuns isWs '-' normalized
    let s2 := collapseRuns (fun c => c == '-') '-' s1
    let s3 := ((s2.dropWhile (fun c => c == '-')).reverse.dropWhile (fun c => c == '-')).reverse
    let lowered := s3.map Char.toLower
    if lowered.isEmpty then "channel" else ⟨lowered⟩

/-- Case-sensitive substring test (JS `String.prototype.includes`). -/
def containsList (pat : List Char) : List Char → Bool
  | [] => pat.isEmpty
  | c :: cs => startsWithList pat (c :: cs) || containsList pat cs

/-- The `suggestDescription` helper of textParser.js. -/
def suggestDescription (name : String) (isVoice : Bool) : String :=
  let key := jsToLower name
  if containsList "welcome".data key.data then "Welcome channel with server info."
  else if containsList "rules".data key.data then "Server rules."
  else if containsList "announce".data key.data || containsList "news".data key.data then
    "Announcements."
  else if containsList "chat".data key.data || containsList "general".data key.data then
    "General chat."
  else if containsList "support".data key.data then "Support channel."
  else if isVoice then "A voice channel for talking."
  else "Auto generated description."

/-- Matcher at one position for the `extractTopic` regex, dash then
whitespace then capture (written `-\s+(.+)` between slashes in the source):
a hyphen, at least one whitespace character, then a non-empty remainder of
the line. -/
def topicAt : List Char → Option String
  | '-' :: rest =>
    match rest with
    | c :: _ =>
      if isWs c then
        let cap := (rest.dropWhile isWs).takeWhile (fun ch => ch != '\n')
        if cap.isEmpty then none else some ⟨trimList cap⟩
      else none
    | [] => none
  | _ => none

/-- The `extractTopic` helper of textParser.js (result already trimmed). -/
def extractTopic (line : String) : Option String :=
  scanFirst topicAt line.data

/-- Matcher at one position for `/#([\w-]+)/`: a hash followed by at least one
word-or-hyphen character; yields the capture. -/
def hashNameAt : List Char → Option (List Char)
  | '#' :: rest =>
    let cap := rest.takeWhile (fun c => isWordChar c || c == '-')
    if cap.isEmpty then none else some cap
  | _ => none

/-- First whitespace-separated token (JS `s.split(/\s+/)[0]`; a leading
whitespace character yields the empty first element). -/
def firstWsToken (s : String) : String :=
  match s.data with
  | [] => ""
  | c :: _ => if isWs c then "" else ⟨s.data.takeWhile (fun ch => !isWs ch)⟩

/-- The `buildChannelFromLine` function of textParser.js. -/
def buildChannelFromLine (line : String) : ChannelSpec :=
  let normalized := normalizeLine line
  let isVoice := (scanFirst typeVoiceAt normalized.data).isSome || hasVoiceWord normalized
  let withoutPrefix : String :=
    ⟨normalized.data.dropWhile (fun c => c == '-' || isWs c || c == '|')⟩
  let hashMatch := scanFirst hashNameAt normalized.data
  let namePart0 : String :=
    match hashMatch with
    | some cap => ⟨cap⟩
    | none =>
      jsTrim ⟨(match withoutPrefix.data.takeWhile (fun c => c != '|') with
               | '#' :: rest => rest
               | l => l)⟩
  let namePart := if namePart0.data.isEmpty then firstWsToken withoutPrefix else namePart0
  let safeName := slugifyPreserve namePart
  let topic :=
    match extractTopic normalized with
    | some t => if t.data.isEmpty then suggestDescription safeName isVoice else t
    | none => suggestDescription safeName isVoice
  let perms := extractPermissions normalized
  let overwrites : Option (List ChannelOverwrite) :=
    if perms.length > 0 then
      some [{ roleRefId := "everyone",
              allow := toString (permissionsToBitfield perms),
              deny := "0" }]
    else none
  { name := if safeName.data.isEmpty then "channel" else safeName,
    type := .str (if isVoice then "voice" else "text"),
    topic := some topic,
    overwrites := overwrites,
    privateFlag := some false }

/-- Characters kept by the category-name class `[\p{L}\p{N}\s-]` (ASCII
reading; note: no underscore, unlike the slug class). -/
def keepCatChar (c : Char) : Bool :=
  c.isAlpha || c.isDigit || isWs c || c == '-'

/-- The `cleanCategoryName` helper of textParser.js. -/
def cleanCategoryName (name : String) : String :=
  let normalized :=
    scanRemove (fun l => (consumeCI "(category)".data l).map (·.2)) (normalizeLine name).data
  let noEmoji := normalized.map (fun c => if keepCatChar c then c else ' ')
  let collapsed := collapseMultiWs noEmoji.length noEmoji
  let clean := trimList collapsed
  if clean.isEmpty then "Category" else ⟨clean⟩

/-- The `isCategoryLine` helper of textParser.js: `/\(category\)/i.test(line)`. -/
def isCategoryLine (line : String) : Bool :=
  containsCI "(category)".data line.data

/-- The `buildRoleFromLine` function of textParser.js.  The nondeterministic
`role-${Date.now()}-${Math.random()...}` reference id is modelled by the
caller-supplied `nonce` suffix. -/
def buildRoleFromLine (line : String) (nonce : String) : Option RoleSpec :=
  match findColorMatch line with
  | none => none
  | some (whole, cap) =>
    let color := hexToNat (replaceFirstList "#".data [] cap.data)
    let perms := extractPermissions line
    let namePart := jsTrim (removePermsBlock ⟨replaceFirstList whole.data [] line.data⟩)
    let cleanName := jsTrim ⟨collapseMultiWs namePart.data.length namePart.data⟩
    if cleanName.data.isEmpty then none
    else
      some { refId := "role-" ++ nonce,
             name := cleanName,
             color := color,
             hoist := false,
             mentionable := true,
             permissions := toString (permissionsToBitfield perms),
             isEveryone := false }

/-- One step of the parse loop of `parseTextStructure`.  The mutable JS state
(`template.roles`, `template.categories`, the `currentCategory` alias to the
last pushed category) is threaded explicitly: `closed` holds the categories
no longer current, `current` the one still receiving channels. -/
def parseLoop (nonceF : Nat → String) :
    Nat → List RoleSpec → List CategorySpec → Option CategorySpec → List String →
    List RoleSpec × List CategorySpec
  | _, roles, closed, current, [] => (roles, closed ++ current.toList)
  | idx, roles, closed, current, line :: rest =>
    if isRoleLine line then
      match buildRoleFromLine line (nonceF idx) with
      | some role => parseLoop nonceF (idx + 1) (roles ++ [role]) closed current rest
      | none => parseLoop nonceF (idx + 1) roles closed current rest
    else
      let trimmed := normalizeLine (jsTrim line)
      let isChannel := looksLikeChannel trimmed
      let isCat :=
        isCategoryLine trimmed ||
        (!isChannel && !(startsWithList "-".data trimmed.data))
      if isCat then
        parseLoop nonceF idx roles (closed ++ current.toList)
          (some { name := cleanCategoryName trimmed, channels := [] }) rest
      else
        match current with
        | some cur =>
          parseLoop nonceF idx roles closed
            (some { cur with channels := cur.channels ++ [buildChannelFromLine trimmed] }) rest
        | none =>
          parseLoop nonceF idx roles closed
            (some { name := "General", channels := [buildChannelFromLine trimmed] }) rest

/-- The `parseTextStructure` function of textParser.js.  `nonceF` supplies the
nondeterministic role reference-id tails (`Date.now()` and `Math.random()`). -/
def parseTextStructure (raw : String) (nonceF : Nat → String) : Template :=
  let lines :=
    ((splitLines raw).map (fun l => normalizeLine (jsTrimEnd l))).filter
      (fun l => !l.data.isEmpty)
  let rc := parseLoop nonceF 0 [] [] none lines
  let totalChannels := rc.2.foldl (fun acc cat => acc + cat.channels.length) 0
  { roles := rc.1,
    categories := rc.2,
    summary := toString rc.2.length ++ " categories / " ++
               toString totalChannels ++ " channels" }

/-- Live role record of the modelled platform (the fields discord.js exposes
that this pipeline reads). -/
structure LiveRole where
  id : String
  name : String
  color : Nat
  hoist : Bool
  mentionable : Bool
  permissions : Nat
  rawPosition : Nat
deriving Repr, DecidableEq

/-- Live permission overwrite; `type = 0` marks a role-scoped overwrite. -/
structure LiveOverwrite where
  id : String
  type : Nat
  allow : Nat
  deny : Nat
deriving Repr, DecidableEq

/-- Live channel record; `type` 4 is a category container, 2 a voice channel,
0 a text channel. -/
structure LiveChannel where
  id : String
  name : String
  type : Nat
  parentId : Option String
  topic : Option String
  nsfw : Bool
  rateLimitPerUser : Nat
  rawPosition : Nat
  overwrites : List LiveOverwrite
deriving Repr, DecidableEq

/-- Live guild state: the base (everyone) role id, the role and channel
collections, and a counter from which the platform mints fresh opaque ids.
New items receive successive `rawPosition` values, modelling the platform's
display-order field for items created one after another. -/
structure Guild where
  everyoneId : String
  roles : List LiveRole
  channels : List LiveChannel
  nextId : Nat
deriving Repr, DecidableEq

/-- Fresh opaque platform id number `n`.  Platform ids are opaque unique
strings (snowflakes); they are modelled by an injective generator whose
injectivity is provable from first principles. -/
def freshId (n : Nat) : String :=
  ⟨'l' :: 'i' :: 'v' :: 'e' :: '-' :: List.replicate n 'x'⟩

/-- Channel-creation payload as assembled by serverBuilder.js; `none` models
an absent (undefined) property. -/
structure Payload where
  name : String
  type : Nat
  parent : Option String := none
  topic : Option String := none
  nsfw : Option Bool := none
  rateLimitPerUser : Option Nat := none
deriving Repr, DecidableEq

/-- Platform rejection of a creation call: the optional numeric error code
and whether the error body carries a `topic` field error
(`err.rawError.errors.topic`). -/
structure ApiErr where
  code : Option Nat := none
  topicFieldError : Bool := false
deriving Repr, DecidableEq

/-- One mutating platform call issued by the provisioning engine. -/
inductive ApiCall
  | createRole (name : String) (color : Nat) (hoist mentionable : Bool) (permissions : Nat)
  | createChannel (payload : Payload)
  | createOverwrite (channelId roleId : String) (allow deny : Nat)
deriving Repr, DecidableEq

/-- Platform behaviour model: which channel-creation payloads the live service
rejects, and with what error.  Role and overwrite creations are modelled as
always succeeding (no claim concerns their rejection). -/
structure Platform where
  chanErr : Payload → Option ApiErr

/-- Error that halts a provisioning run: a propagated platform rejection, or
a `RangeError` thrown by `PermissionsBitField` on an unresolvable permission
value inside `normalizePermValue`. -/
inductive BuildErr
  | api (e : ApiErr)
  | badPermissions (value : String)
deriving Repr, DecidableEq

/-- Result of a provisioning run: the final guild state, the ordered trace of
issued platform calls (including rejected attempts), and the error that
halted the run, if any. -/
structure BuildResult where
  guild : Guild
  calls : List ApiCall
  err : Option BuildErr
deriving Repr, DecidableEq

/-- JS `Map.prototype.set` on an association list: replaces the value of the
(first, and in a genuine map only) occurrence of the key in place, else
appends (preserving insertion order). -/
def jsMapSet {α : Type} : List (String × α) → String → α → List (String × α)
  | [], k, v => [(k, v)]
  | kv :: rest, k, v => if kv.1 == k then (k, v) :: rest else kv :: jsMapSet rest k v

/-- JS `Map.prototype.get` on an association list. -/
def jsMapGet {α : Type} (m : List (String × α)) (k : String) : Option α :=
  (m.find? (fun kv => kv.1 == k)).map (fun kv => kv.2)

/-- JS falsy test for a string-valued lookup result (`undefined` or `''`). -/
def truthyOptStr : Option String → Bool
  | some s => !s.data.isEmpty
  | none => false

/-- JS `a || b` for strings (the empty string is falsy). -/
def jsOrStr (a b : String) : String :=
  if a.data.isEmpty then b else a

/-- BigInt conversion of a decimal string: surrounding whitespace is ignored,
the empty string is `0`, a digit string is its value, anything else throws
(`none`).  (The JS `BigInt` also accepts sign and radix prefixes, which this
pipeline never produces; they are modelled as throwing.) -/
def jsBigIntDec (s : String) : Option Nat :=
  let t := trimList s.data
  if t.isEmpty then some 0
  else if t.all (fun c => c.isDigit) then some (digitsToNat t)
  else none

/-- The `normalizePermValue` helper of serverBuilder.js restricted to string
inputs (the only value shape the Template data model produces): try
`BigInt(val)`, and on failure fall back to `new PermissionsBitField(val)`,
which resolves a canonical flag name and throws (`none`) otherwise. -/
def normalizePermValue (val : String) : Option Nat :=
  match jsBigIntDec val with
  | some n => some n
  | none => if isFlagName val then some (flagBit val) else none

/-- The `sanitizeName` helper of serverBuilder.js: trim, default an
empty-after-trim name to "channel", truncate to 90 characters. -/
def sanitizeName (name : String) : String :=
  let trimmed := jsTrim name
  if trimmed.data.isEmpty then "channel" else ⟨trimmed.data.take 90⟩

/-- The `isVoiceType` helper of serverBuilder.js. -/
def isVoiceType : ChType → Bool
  | .num n => n == 2
  | .str s => jsToLower s == "voice"

/-- Platform-side channel creation (the always-succeeding part of
`guild.channels.create`): mint an id, append the channel at the next display
position. -/
def createChannelRaw (g : Guild) (p : Payload) : Guild × String :=
  let id := freshId g.nextId
  let ch : LiveChannel :=
    { id := id, name := p.name, type := p.type, parentId := p.parent,
      topic := p.topic, nsfw := p.nsfw.getD false,
      rateLimitPerUser := p.rateLimitPerUser.getD 0,
      rawPosition := g.channels.length, overwrites := [] }
  ({ g with channels := g.channels ++ [ch], nextId := g.nextId + 1 }, id)

/-- Platform-side role creation (`guild.roles.create`). -/
def createRoleRaw (g : Guild) (name : String) (color : Nat) (hoist mentionable : Bool)
    (permissions : Nat) : Guild × String :=
  let id := freshId g.nextId
  let r : LiveRole :=
    { id := id, name := name, color := color, hoist := hoist,
      mentionable := mentionable, permissions := permissions,
      rawPosition := g.roles.length }
  ({ g with roles := g.roles ++ [r], nextId := g.nextId + 1 }, id)

/-- Result of one `createChannelSafe` call: updated guild, the creation calls
attempted (in order), and either the created channel id or the error that
escaped. -/
structure ChanAttempt where
  guild : Guild
  calls : List ApiCall
  result : Except ApiErr String
deriving Repr

/-- The error signature tested by `createChannelSafe`:
`err?.rawError?.errors?.topic || err?.code === 50035`. -/
def topicInvalidErr (e : ApiErr) : Bool :=
  e.topicFieldError || e.code == some 50035

/-- The `createChannelSafe` function of serverBuilder.js: attempt the
creation; if it is rejected with the topic-invalid signature and the payload
has a (truthy) topic, retry once with the `topic` property deleted; any other
rejection, or a rejection of the retry, escapes. -/
def createChannelSafe (p : Platform) (g : Guild) (payload : Payload) : ChanAttempt :=
  match p.chanErr payload with
  | none =>
    let (g2, id) := createChannelRaw g payload
    { guild := g2, calls := [.createChannel payload], result := .ok id }
  | some e =>
    if topicInvalidErr e && truthyOptStr payload.topic then
      let clone := { payload with topic := none }
      match p.chanErr clone with
      | none =>
        let (g2, id) := createChannelRaw g clone
        { guild := g2, calls := [.createChannel payload, .createChannel clone],
          result := .ok id }
      | some e2 =>
        { guild := g, calls := [.createChannel payload, .createChannel clone],
          result := .error e2 }
    else { guild := g, calls := [.createChannel payload], result := .error e }

/-- The skip condition of the role phase:
`tpl.isEveryone || tpl.refId === guild.roles.everyone.id`. -/
def skipRole (everyoneId : String) (r : RoleSpec) : Bool :=
  r.isEveryone || r.refId == everyoneId

/-- Worker for `ensureRoles`, threading the refId-to-live-id map. -/
def ensureRolesAux (g : Guild) (map : List (String × String)) :
    List RoleSpec → Guild × List ApiCall × List (String × String) × Option BuildErr
  | [] => (g, [], map, none)
  | tpl :: rest =>
    if skipRole g.everyoneId tpl then
      ensureRolesAux g (jsMapSet map tpl.refId g.everyoneId) rest
    else
      match normalizePermValue tpl.permissions with
      | none => (g, [], map, some (.badPermissions tpl.permissions))
      | some perms =>
        let created := createRoleRaw g tpl.name tpl.color tpl.hoist tpl.mentionable perms
        let res := ensureRolesAux created.1 (jsMapSet map tpl.refId created.2) rest
        (res.1, .createRole tpl.name tpl.color tpl.hoist tpl.mentionable perms :: res.2.1,
         res.2.2.1, res.2.2.2)

/-- The `ensureRoles` function of serverBuilder.js: seed the map with the
sentinel "everyone" key bound to the base role, then walk the RoleSpecs in
order, skipping (and mapping to the base role) any entry that is flagged
`isEveryone` or whose `refId` equals the base role's live id, and creating
one live role for each remaining entry. -/
def ensureRoles (g : Guild) (tpls : List RoleSpec) :
    Guild × List ApiCall × List (String × String) × Option BuildErr :=
  ensureRolesAux g (jsMapSet [] "everyone" g.everyoneId) tpls

/-- Append a live overwrite to the channel with the given id. -/
def addOverwrite (g : Guild) (chanId : String) (ow : LiveOverwrite) : Guild :=
  { g with
    channels := g.channels.map (fun c =>
      if c.id == chanId then { c with overwrites := c.overwrites ++ [ow] } else c) }

/-- The overwrite loop of `buildServerFromTemplate`: resolve each
`roleRefId` through the map, skipping unresolvable (falsy) entries, and
issue one overwrite-creation call per resolvable entry; an unresolvable
permission value inside `normalizePermValue` throws and halts. -/
def applyOverwrites (g : Guild) (map : List (String × String)) (chanId : String) :
    List ChannelOverwrite → Guild × List ApiCall × Option BuildErr
  | [] => (g, [], none)
  | ow :: rest =>
    match jsMapGet map ow.roleRefId with
    | none => applyOverwrites g map chanId rest
    | some rid =>
      if rid.data.isEmpty then applyOverwrites g map chanId rest
      else
        match normalizePermValue ow.allow with
        | none => (g, [], some (.badPermissions ow.allow))
        | some allowB =>
          match normalizePermValue ow.deny with
          | none => (g, [], some (.badPermissions ow.deny))
          | some denyB =>
            let g2 := addOverwrite g chanId { id := rid, type := 0, allow := allowB, deny := denyB }
            let res := applyOverwrites g2 map chanId rest
            (res.1, .createOverwrite chanId rid allowB denyB :: res.2.1, res.2.2)

/-- Truncation of a text channel's topic for the creation payload
(`ch.topic ? ch.topic.slice(0, 1024) : undefined`). -/
def payloadTopic : Option String → Option String
  | some t => if t.data.isEmpty then none else some ⟨t.data.take 1024⟩
  | none => none

/-- The channel-creation payload assembled by `buildServerFromTemplate` for
one ChannelSpec under the given parent category. -/
def channelPayload (parentId : String) (ch : ChannelSpec) : Payload :=
  let name := sanitizeName (jsOrStr ch.name "channel")
  if isVoiceType ch.type then
    { name := name, type := 2, parent := some parentId }
  else
    { name := name, type := 0, parent := some parentId,
      topic := payloadTopic ch.topic,
      nsfw := some (ch.nsfw.getD false),
      rateLimitPerUser := some (ch.slowmode.getD 0) }

/-- The inner channel loop of `buildServerFromTemplate` for one category. -/
def buildChannelsLoop (p : Platform) (g : Guild) (map : List (String × String))
    (parentId : String) : List ChannelSpec → Guild × List ApiCall × Option BuildErr
  | [] => (g, [], none)
  | ch :: rest =>
    let att := createChannelSafe p g (channelPayload parentId ch)
    match att.result with
    | .error e => (att.guild, att.calls, some (.api e))
    | .ok chanId =>
      let ow :=
        match ch.overwrites with
        | some ows => applyOverwrites att.guild map chanId ows
        | none => (att.guild, [], none)
      match ow.2.2 with
      | some e => (ow.1, att.calls ++ ow.2.1, some e)
      | none =>
        let res := buildChannelsLoop p ow.1 map parentId rest
        (res.1, att.calls ++ ow.2.1 ++ res.2.1, res.2.2)

/-- The outer category loop of `buildServerFromTemplate`.  Category
containers are created with a direct `guild.channels.create` call (no topic
retry). -/
def buildCategoriesLoop (p : Platform) (g : Guild) (map : List (String × String)) :
    List CategorySpec → Guild × List ApiCall × Option BuildErr
  | [] => (g, [], none)
  | cat :: rest =>
    let payload : Payload := { name := sanitizeName (jsOrStr cat.name "Category"), type := 4 }
    match p.chanErr payload with
    | some e => (g, [.createChannel payload], some (.api e))
    | none =>
      let created := createChannelRaw g payload
      let ch := buildChannelsLoop p created.1 map created.2 cat.channels
      match ch.2.2 with
      | some e => (ch.1, .createChannel payload :: ch.2.1, some e)
      | none =>
        let res := buildCategoriesLoop p ch.1 map rest
        (res.1, .createChannel payload :: (ch.2.1 ++ res.2.1), res.2.2)

/-- The `buildServerFromTemplate` function of serverBuilder.js: the complete
role phase first, then the category/channel structure phase. -/
def buildServerFromTemplate (p : Platform) (g : Guild) (t : Template) : BuildResult :=
  let roleRes := ensureRoles g t.roles
  match roleRes.2.2.2 with
  | some e => { guild := roleRes.1, calls := roleRes.2.1, err := some e }
  | none =>
    let res := buildCategoriesLoop p roleRes.1 roleRes.2.2.1 t.categories
    { guild := res.1, calls := roleRes.2.1 ++ res.2.1, err := res.2.2 }

/-- Stable insertion into a list sorted ascending by `key` (an element is
placed before the first strictly-later element with an equal or larger key). -/
def insertByKey {α : Type} (key : α → Nat) (x : α) : List α → List α
  | [] => [x]
  | y :: ys => if key x ≤ key y then x :: y :: ys else y :: insertByKey key x ys

/-- Stable ascending sort by a numeric key: the denotation of the JS
`collection.sort((a, b) => a.field - b.field)` calls in `fromGuild`
(JS `sort` is stable). -/
def sortByKey {α : Type} (key : α → Nat) : List α → List α
  | [] => []
  | x :: xs => insertByKey key x (sortByKey key xs)

/-- Conversion of one live child channel to a ChannelSpec, as in the channel
loop of `fromGuild` in index.js: role-scoped overwrites (`type === 0`) are
kept, user-scoped ones dropped; bit values are re-serialized as decimal
strings. -/
def liveChanToSpec (ch : LiveChannel) : ChannelSpec :=
  { name := ch.name,
    type := .str (if ch.type == 2 then "voice" else "text"),
    topic := ch.topic,
    nsfw := some ch.nsfw,
    slowmode := some ch.rateLimitPerUser,
    overwrites := some ((ch.overwrites.filter (fun ow => ow.type == 0)).map
      (fun ow => { roleRefId := ow.id, allow := toString ow.allow,
                   deny := toString ow.deny })) }

/-- One step of the channel-assignment loop of `fromGuild`: resolve the
channel's parent in the category map (skipping channels whose parent is not
a category) and push the converted channel onto its parent's list. -/
def childStep (m : List (String × CategorySpec)) (ch : LiveChannel) :
    List (String × CategorySpec) :=
  match ch.parentId with
  | none => m
  | some pid =>
    match jsMapGet m pid with
    | none => m
    | some parent =>
      jsMapSet m pid { parent with channels := parent.channels ++ [liveChanToSpec ch] }

/-- The `fromGuild` function of index.js (the guild snapshot extractor):
roles sorted by display position become RoleSpecs keyed by their live id;
category containers (type 4) sorted by position seed an insertion-ordered
map; every channel with a truthy parent link, sorted by position, is pushed
onto its parent's channel list (channels whose parent is not in the map are
silently dropped); the map's values, in insertion order, are the
categories. -/
def fromGuild (g : Guild) : Template :=
  let rolesSorted := sortByKey (fun r => r.rawPosition) g.roles
  let roleTemplates := rolesSorted.map (fun role =>
    { refId := role.id, name := role.name, color := role.color, hoist := role.hoist,
      mentionable := role.mentionable, permissions := toString role.permissions,
      position := some role.rawPosition,
      isEveryone := role.id == g.everyoneId : RoleSpec })
  let cats := sortByKey (fun c => c.rawPosition) (g.channels.filter (fun ch => ch.type == 4))
  let catMap0 := cats.foldl
    (fun m cat => jsMapSet m cat.id { name := cat.name, channels := [] })
    ([] : List (String × CategorySpec))
  let children := sortByKey (fun c => c.rawPosition)
    (g.channels.filter (fun ch => truthyOptStr ch.parentId))
  let catMap := children.foldl childStep catMap0
  { roles := roleTemplates,
    categories := catMap.map (fun kv => kv.2),
    summary := toString catMap.length ++ " categories copied" }

/-- Category shape as seen by the validator: the `channels` key may be
absent. -/
structure VCategory where
  channels : Option (List ChannelSpec)
deriving Repr, DecidableEq

/-- Template shape as seen by the validator, before any shape has been
established: `categories` is `none` when the key is missing or not an array,
likewise `roles`. -/
structure VTemplate where
  categories : Option (List VCategory)
  roles : Option (List RoleSpec)
deriving Repr, DecidableEq

/-- Validation failure taxonomy: `templateInvalid` for a malformed shape,
`limitExceeded` for a count over a platform ceiling. -/
inductive VError
  | templateInvalid (msg : String)
  | limitExceeded (msg : String)
deriving Repr, DecidableEq

/-- Channel ceiling (index.js `MAX_CHANNELS`). -/
def MAX_CHANNELS : Nat := 500

/-- Role ceiling (index.js `MAX_ROLES`). -/
def MAX_ROLES : Nat := 200

/-- The `channelCount` accumulation loop of `ensureTemplateSafe`
(`cat.channels ? cat.channels.length : 0`, summed). -/
def vChannelCount (cats : List VCategory) : Nat :=
  cats.foldl
    (fun acc cat => acc + (match cat.channels with | some l => l.length | none => 0)) 0

/-- The `roleCount` expression of `ensureTemplateSafe`
(`Array.isArray(template.roles) ? template.roles.length : 0`). -/
def vRoleCount (t : VTemplate) : Nat :=
  match t.roles with
  | some rs => rs.length
  | none => 0

/-- The `ensureTemplateSafe` function of index.js.  A `none` input models a
falsy `template` argument. -/
def ensureTemplateSafe (template : Option VTemplate) : Except VError Unit :=
  match template with
  | none => .error (.templateInvalid "Template is not valid.")
  | some t =>
    match t.categories with
    | none => .error (.templateInvalid "Template is not valid.")
    | some cats =>
      let channelCount := vChannelCount cats
      let roleCount := vRoleCount t
      if channelCount > MAX_CHANNELS then
        .error (.limitExceeded ("Too many channels (" ++ toString channelCount ++
          "). Discord limit is around 500."))
      else if roleCount > MAX_ROLES then
        .error (.limitExceeded ("Too many roles (" ++ toString roleCount ++ ")."))
      else .ok ()

/-- An empty provisioning target: a fresh guild holding only its base role. -/
def emptyTarget : Guild :=
  { everyoneId := "everyone-base",
    roles := [{ id := "everyone-base", name := "@everyone", color := 0, hoist := false,
                mentionable := false, permissions := 0, rawPosition := 0 }],
    channels := [],
    nextId := 0 }

/-- A platform on which every channel creation succeeds. -/
def okPlatform : Platform :=
  { chanErr := fun _ => none }

/-! Specification-side definitions: projections, predicates and expected
values used to state the claims, plus concrete fixtures. -/

/-- Test for a `templateInvalid` outcome. -/
def isTemplateInvalid : Except VError Unit → Bool
  | .error (.templateInvalid _) => true
  | _ => false

/-- Test for a `limitExceeded` outcome. -/
def isLimitExceeded : Except VError Unit → Bool
  | .error (.limitExceeded _) => true
  | _ => false

/-- Categories field of the validator input, `none` when the input itself or
its `categories` key is missing/not a sequence. -/
def vCats : Option VTemplate → Option (List VCategory)
  | none => none
  | some t => t.categories

/-- Role count of the validator input. -/
def vRolesOf : Option VTemplate → Nat
  | none => 0
  | some t => vRoleCount t

/-- OR-fold of a list of bit values. -/
def orList (l : List Nat) : Nat :=
  l.foldr (fun a b => a ||| b) 0

/-- Canonical bit contributed by one permission token: the bit of the flag
name the synonym table assigns to the normalized token, `0` when the table
does not recognize it. -/
def canonPermBit (p : String) : Nat :=
  orList ((matchPerm (permNorm p)).map flagBit)

/-- The role-creation call a non-skipped RoleSpec gives rise to. -/
def mkRoleCall (r : RoleSpec) : ApiCall :=
  .createRole r.name r.color r.hoist r.mentionable ((normalizePermValue r.permissions).getD 0)

/-- Test for a role-creation call. -/
def isCreateRole : ApiCall → Bool
  | .createRole _ _ _ _ _ => true
  | _ => false

/-- Channel record with its overwrite list erased: the "shape" of a live
channel (identity, name, type, parent, topic, flags, position). -/
def eraseOws (c : LiveChannel) : LiveChannel :=
  { c with overwrites := [] }

/-- Name-and-type projection of a parsed/extracted category, the part of the
structure claim C1 compares. -/
def projCat (c : CategorySpec) : String × List (String × ChType) :=
  (c.name, c.channels.map (fun ch => (ch.name, ch.type)))

/-- Name, color and permission-string projection of a RoleSpec. -/
def roleProj (r : RoleSpec) : String × Nat × String :=
  (r.name, r.color, r.permissions)

/-- Test that a permission string is a canonical decimal serialization: it
resolves, and re-serializing the resolved bits reproduces it exactly. -/
def canonicalPermStr (s : String) : Bool :=
  match normalizePermValue s with
  | some n => toString n == s
  | none => false

/-- Test that every overwrite of a ChannelSpec carries resolvable allow/deny
values (so `normalizePermValue` cannot throw on it). -/
def owsOk (ch : ChannelSpec) : Bool :=
  match ch.overwrites with
  | some ows => ows.all (fun ow =>
      (normalizePermValue ow.allow).isSome && (normalizePermValue ow.deny).isSome)
  | none => true

/-- Resolution of one overwrite's role reference through the refId map,
with the JS falsy values (`undefined`, the empty string) treated as
unresolvable. -/
def resolvedOf (map : List (String × String)) (ow : ChannelOverwrite) : Option String :=
  match jsMapGet map ow.roleRefId with
  | some rid => if rid.data.isEmpty then none else some rid
  | none => none

/-- Bounds claim C10 makes about one platform call: channel-creation payloads
carry a nonempty name of at most 90 characters and a topic of at most 1024
characters. -/
def GoodCall : ApiCall → Prop
  | .createChannel pl =>
    pl.name.data.length ≤ 90 ∧ pl.name ≠ "" ∧
    ∀ t, pl.topic = some t → t.data.length ≤ 1024
  | _ => True

/-- Live role created for one RoleSpec at display position `pos` with id
number `idn`. -/
def mkLiveRole (pos idn : Nat) (r : RoleSpec) : LiveRole :=
  { id := freshId idn, name := r.name, color := r.color, hoist := r.hoist,
    mentionable := r.mentionable,
    permissions := (normalizePermValue r.permissions).getD 0,
    rawPosition := pos }

/-- Expected live roles created for a RoleSpec list, positions and id
numbers counting up from `pos` and `idn`. -/
def expRolesAux : Nat → Nat → List RoleSpec → List LiveRole
  | _, _, [] => []
  | pos, idn, r :: rs => mkLiveRole pos idn r :: expRolesAux (pos + 1) (idn + 1) rs

/-- Expected live channel (overwrites erased) created for one ChannelSpec. -/
def expChanLive (parentId : String) (pos idn : Nat) (ch : ChannelSpec) : LiveChannel :=
  let pl := channelPayload parentId ch
  { id := freshId idn, name := pl.name, type := pl.type, parentId := pl.parent,
    topic := pl.topic, nsfw := pl.nsfw.getD false,
    rateLimitPerUser := pl.rateLimitPerUser.getD 0,
    rawPosition := pos, overwrites := [] }

/-- Expected live channels for one category's ChannelSpec list. -/
def expChansAux (parentId : String) : Nat → Nat → List ChannelSpec → List LiveChannel
  | _, _, [] => []
  | pos, idn, ch :: rest =>
    expChanLive parentId pos idn ch :: expChansAux parentId (pos + 1) (idn + 1) rest

/-- Expected live category container for one CategorySpec. -/
def expCatChan (pos idn : Nat) (cat : CategorySpec) : LiveChannel :=
  { id := freshId idn, name := sanitizeName (jsOrStr cat.name "Category"), type := 4,
    parentId := none, topic := none, nsfw := false, rateLimitPerUser := 0,
    rawPosition := pos, overwrites := [] }

/-- Expected live channel list (overwrites erased) for a CategorySpec list:
each category container followed by its nested channels, positions and id
numbers counting up. -/
def expCatsAux : Nat → Nat → List CategorySpec → List LiveChannel
  | _, _, [] => []
  | pos, idn, cat :: rest =>
    expCatChan pos idn cat ::
      (expChansAux (freshId idn) (pos + 1) (idn + 1) cat.channels ++
       expCatsAux (pos + 1 + cat.channels.length) (idn + 1 + cat.channels.length) rest)

/-- Total number of live channels (containers plus children) a CategorySpec
list gives rise to. -/
def catsSize : List CategorySpec → Nat
  | [] => 0
  | cat :: rest => 1 + cat.channels.length + catsSize rest

/-- The category-container entries of `expCatsAux`, in order. -/
def expCatHeads : Nat → Nat → List CategorySpec → List LiveChannel
  | _, _, [] => []
  | pos, idn, cat :: rest =>
    expCatChan pos idn cat ::
      expCatHeads (pos + 1 + cat.channels.length) (idn + 1 + cat.channels.length) rest

/-- The child-channel entries of `expCatsAux`, in order. -/
def expCatChildren : Nat → Nat → List CategorySpec → List LiveChannel
  | _, _, [] => []
  | pos, idn, cat :: rest =>
    expChansAux (freshId idn) (pos + 1) (idn + 1) cat.channels ++
      expCatChildren (pos + 1 + cat.channels.length) (idn + 1 + cat.channels.length) rest

/-- A deterministic nonce supply for instantiating the parser. -/
def nonce0 : Nat → String :=
  fun n => toString n

/-- Example 2 input of the specification. -/
def inputC5 : String :=
  "Owner | Color: #ff0000 | Permissions: [Administrator, Manage Roles]"

/-- Example 1 input of the specification. -/
def inputC6 : String :=
  "INFORMATION\n  #rules | Type: text | Permissions: [View Channel, Read Message History]"

/-- A platform that rejects any payload named "bad" with the bare validation
error code 50035 and no topic field error: the rejection is about the name,
not the topic. -/
def badNamePlatform : Platform :=
  { chanErr := fun pl => if pl.name == "bad" then some { code := some 50035 } else none }

/-- A payload with an invalid name and a topic present. -/
def badNamePayload : Payload :=
  { name := "bad", type := 0, topic := some "t" }

/-- A platform that rejects exactly the topic value "BAD TOPIC" with a
topic-field validation error. -/
def badTopicPlatform : Platform :=
  { chanErr := fun pl =>
      if pl.topic == some "BAD TOPIC" then some { code := some 50035, topicFieldError := true }
      else none }

/-- The empty Template (zero roles, zero categories). -/
def emptyTemplate : Template :=
  { roles := [], categories := [], summary := "" }

/-- Counterexample fixture for C3: a RoleSpec not flagged `isEveryone` whose
`refId` happens to equal the target's base role id. -/
def collidingRoleTemplate : Template :=
  { roles := [{ refId := "everyone-base", name := "Ghost", color := 1, hoist := false,
                mentionable := true, permissions := "0", isEveryone := false }],
    categories := [], summary := "" }

/-- Counterexample fixture for C10: a category whose name is empty. -/
def emptyCatNameTemplate : Template :=
  { roles := [], categories := [{ name := "", channels := [] }], summary := "" }

/-- Example 4 fixture for C9: one category, one channel, an unresolvable
overwrite followed by a resolvable one. -/
def mixedOverwriteTemplate : Template :=
  { roles := [],
    categories := [{ name := "Main",
                     channels := [{ name := "general", type := .str "text",
                                    overwrites := some
                                      [{ roleRefId := "nope", allow := "2048", deny := "0" },
                                       { roleRefId := "everyone", allow := "1024", deny := "0" }] }] }],
    summary := "" }

/-- Round-trip witness fixture for C1: a normalized template with one role,
one category, two channels and overwrites. -/
def roundTripTemplate : Template :=
  { roles := [{ refId := "r1", name := "Mods", color := 5, hoist := false,
                mentionable := true, permissions := "8", isEveryone := false }],
    categories := [{ name := "INFO",
                     channels := [{ name := "rules", type := .str "text", topic := some "hi",
                                    overwrites := some
                                      [{ roleRefId := "r1", allow := "1024", deny := "0" }] },
                                  { name := "talk", type := .str "voice" }] }],
    summary := "" }

/-- Five hundred identical channel specs. -/
def fiveHundredChannels : List ChannelSpec :=
  List.replicate 500 { name := "c", type := .str "text" }

/-- Validator witness fixture: a category holding exactly 500 channels. -/
def fiveHundredTemplate : VTemplate :=
  { categories := some [{ channels := some fiveHundredChannels }],
    roles := some [] }

/-- Witness fixture for C3: one skipped and one created role. -/
def twoRoleTemplate : Template :=
  { roles := [{ refId := "base", name := "everyone", color := 0, hoist := false,
                mentionable := false, permissions := "0", isEveryone := true },
              { refId := "r1", name := "Mods", color := 5, hoist := false,
                mentionable := true, permissions := "8", isEveryone := false }],
    categories := [{ name := "Main", channels := [] }], summary := "" }

/-! Theorems. -/

/-- C2: `validate(template)` throws a `TemplateInvalid` error if and only if
`categories` is missing or not a sequence; otherwise it throws a
`LimitExceeded` error if and only if the total channel count across all
categories exceeds 500 or the role count exceeds 200 — in particular it
rejects every Template with 501 channels regardless of their distribution
across categories, and accepts one with exactly 500. -/
theorem ensureTemplateSafe_contract :
    (∀ t : Option VTemplate,
      isTemplateInvalid (ensureTemplateSafe t) = true ↔ vCats t = none) ∧
    (∀ t : Option VTemplate, ∀ cats, vCats t = some cats →
      (isLimitExceeded (ensureTemplateSafe t) = true ↔
        (vChannelCount cats > 500 ∨ vRolesOf t > 200))) ∧
    (∀ t : Option VTemplate, ∀ cats, vCats t = some cats →
      vChannelCount cats = 501 → isLimitExceeded (ensureTemplateSafe t) = true) ∧
    (∀ t : Option VTemplate, ∀ cats, vCats t = some cats →
      vChannelCount cats = 500 → vRolesOf t ≤ 200 →
      ensureTemplateSafe t = .ok ()) := by
  have hred : ∀ (tt : VTemplate) (cats : List VCategory), tt.categories = some cats →
      ensureTemplateSafe (some tt) =
        (if vChannelCount cats > MAX_CHANNELS then
          .error (.limitExceeded ("Too many channels (" ++ toString (vChannelCount cats) ++
            "). Discord limit is around 500."))
        else if vRoleCount tt > MAX_ROLES then
          .error (.limitExceeded ("Too many roles (" ++ toString (vRoleCount tt) ++ ")."))
        else .ok ()) := by
    intro tt cats hc
    simp only [ensureTemplateSafe, hc]
  refine ⟨?_, ?_, ?_, ?_⟩
  · intro t
    match t with
    | none => simp [ensureTemplateSafe, isTemplateInvalid, vCats]
    | some tt =>
      match hc : tt.categories with
      | none => simp [ensureTemplateSafe, isTemplateInvalid, vCats, hc]
      | some cats =>
        rw [hred tt cats hc]
        simp only [vCats, hc]
        split
        · simp [isTemplateInvalid]
        · split <;> simp [isTemplateInvalid]
  · intro t cats hc
    match t with
    | none => simp [vCats] at hc
    | some tt =>
      simp only [vCats] at hc
      rw [hred tt cats hc]
      simp only [vRolesOf, MAX_CHANNELS, MAX_ROLES]
      split
      · rename_i h1
        simp only [isLimitExceeded, true_iff]
        exact Or.inl h1
      · rename_i h1
        split
        · rename_i h2
          simp only [isLimitExceeded, true_iff]
          exact Or.inr h2
        · rename_i h2
          simp only [isLimitExceeded, Bool.false_eq_true, false_iff]
          intro hcon
          rcases hcon with h | h
          · exact h1 h
          · exact h2 h
  · intro t cats hc h501
    match t with
    | none => simp [vCats] at hc
    | some tt =>
      simp only [vCats] at hc
      rw [hred tt cats hc]
      have : vChannelCount cats > MAX_CHANNELS := by
        rw [h501]; simp [MAX_CHANNELS]
      rw [if_pos this]
      simp [isLimitExceeded]
  · intro t cats hc h500 hr
    match t with
    | none => simp [vCats] at hc
    | some tt =>
      simp only [vCats] at hc
      simp only [vRolesOf] at hr
      rw [hred tt cats hc]
      have h1 : ¬ vChannelCount cats > MAX_CHANNELS := by
        rw [h500]; simp [MAX_CHANNELS]
      have h2 : ¬ vRoleCount tt > MAX_ROLES := by
        simp only [MAX_ROLES]; omega
      rw [if_neg h1, if_neg h2]

/-- Witness for C2: the validator accepts a concrete template holding exactly
500 channels, and rejects a missing `categories` key with `TemplateInvalid`. -/
theorem ensureTemplateSafe_contract_witness :
    ensureTemplateSafe (some fiveHundredTemplate) = .ok () ∧
    isTemplateInvalid (ensureTemplateSafe none) = true := by
  constructor
  · exact ensureTemplateSafe_contract.2.2.2 (some fiveHundredTemplate)
      [{ channels := some fiveHundredChannels }]
      rfl
      (by
        have hsingle : ∀ l : List ChannelSpec, vChannelCount [{ channels := some l }] = l.length := by
          intro l; simp [vChannelCount]
        rw [hsingle]
        simp only [fiveHundredChannels, List.length_replicate])
      (by simp [vRolesOf, vRoleCount, fiveHundredTemplate])
  · exact (ensureTemplateSafe_contract.1 none).mpr (by simp [vCats])

/-- C4 counterexample: the claim that no field other than `topic` triggers
the degraded-field fallback fails on the code.  A rejection that is about the
payload's name — carrying the generic validation code 50035 and no topic
field error — still triggers the topic-omitting retry: two creation calls
are attempted, the second with `topic` removed. -/
theorem createChannelSafe_code50035_cex :
    (createChannelSafe badNamePlatform emptyTarget badNamePayload).calls =
      [.createChannel badNamePayload,
       .createChannel { badNamePayload with topic := none }] ∧
    badNamePlatform.chanErr badNamePayload =
      some { code := some 50035, topicFieldError := false } := by
  decide

/-- C4 amended: the engine retries the identical creation exactly once with
`topic` omitted — and aborts the run otherwise — whenever the rejection
carries a topic field error or the generic invalid-form-body code 50035
(which any field's validation failure can produce) and the payload has a
topic; no error surfaces to the caller if the retry succeeds; in every other
case the single attempted call's error escapes. -/
theorem createChannelSafe_retry_contract (p : Platform) (g : Guild) (payload : Payload) :
    (p.chanErr payload = none →
      (createChannelSafe p g payload).calls = [.createChannel payload] ∧
      (createChannelSafe p g payload).result = .ok (freshId g.nextId)) ∧
    (∀ e, p.chanErr payload = some e →
      (topicInvalidErr e && truthyOptStr payload.topic) = true →
      (createChannelSafe p g payload).calls =
        [.createChannel payload, .createChannel { payload with topic := none }] ∧
      (p.chanErr { payload with topic := none } = none →
        (createChannelSafe p g payload).result = .ok (freshId g.nextId)) ∧
      (∀ e2, p.chanErr { payload with topic := none } = some e2 →
        (createChannelSafe p g payload).result = .error e2)) ∧
    (∀ e, p.chanErr payload = some e →
      (topicInvalidErr e && truthyOptStr payload.topic) = false →
      (createChannelSafe p g payload).calls = [.createChannel payload] ∧
      (createChannelSafe p g payload).result = .error e) := by
  refine ⟨?_, ?_, ?_⟩
  · intro h
    simp [createChannelSafe, h, createChannelRaw]
  · intro e he htrig
    refine ⟨?_, ?_, ?_⟩
    · cases hc : p.chanErr { payload with topic := none } <;>
        simp [createChannelSafe, he, htrig, hc, createChannelRaw]
    · intro hc
      simp [createChannelSafe, he, htrig, hc, createChannelRaw]
    · intro e2 hc
      simp [createChannelSafe, he, htrig, hc, createChannelRaw]
  · intro e he htrig
    simp [createChannelSafe, he, htrig, createChannelRaw]

/-- Witness for C4 (amended): on a platform that rejects exactly one topic
value with a topic-field error, a creation with that topic is attempted,
retried without the topic, and succeeds with no escaping error. -/
theorem createChannelSafe_retry_contract_witness :
    (createChannelSafe badTopicPlatform emptyTarget
      { name := "general", type := 0, topic := some "BAD TOPIC" }).calls =
      [.createChannel { name := "general", type := 0, topic := some "BAD TOPIC" },
       .createChannel { name := "general", type := 0, topic := none }] ∧
    (createChannelSafe badTopicPlatform emptyTarget
      { name := "general", type := 0, topic := some "BAD TOPIC" }).result =
      .ok (freshId 0) := by
  have h := (createChannelSafe_retry_contract badTopicPlatform emptyTarget
    { name := "general", type := 0, topic := some "BAD TOPIC" }).2.1
    { code := some 50035, topicFieldError := true } (by decide) (by decide)
  exact ⟨h.1, h.2.1 (by decide)⟩

/-- C5 counterexample: parsing Example 2's input does not yield a RoleSpec
named "Owner" — the pipe delimiters survive into the parsed role name. -/
theorem parseOwner_name_cex :
    (parseTextStructure inputC5 nonce0).roles.map RoleSpec.name ≠ ["Owner"] := by
  decide

/-- C5 amended: parsing Example 2's input yields a Template with zero
categories and exactly one RoleSpec whose name is "Owner | |" (the color and
permission tokens are removed but the pipe delimiters are kept), whose color
is 0xff0000, and whose permission bits equal Administrator with ManageRoles. -/
theorem parseOwner_amended (nonceF : Nat → String) :
    (parseTextStructure inputC5 nonceF).categories = [] ∧
    (parseTextStructure inputC5 nonceF).roles.map RoleSpec.name = ["Owner | |"] ∧
    (parseTextStructure inputC5 nonceF).roles.map RoleSpec.color = [0xff0000] ∧
    (parseTextStructure inputC5 nonceF).roles.map RoleSpec.permissions =
      [toString (flagBit "Administrator" ||| flagBit "ManageRoles")] :=
  ⟨rfl, rfl, rfl, rfl⟩

/-- C6: parsing Example 1's input yields exactly one category "INFORMATION"
containing exactly one text channel named "rules" whose only overwrite is an
allow overwrite carrying the View-Channel and Read-Message-History bits for
the base role; and, in general, every overwrite the text pipeline produces
from a bracketed permission list targets the base role ("everyone"), never a
named role. -/
theorem parseInformation_contract :
    (∀ nonceF : Nat → String,
      (parseTextStructure inputC6 nonceF).categories.map projCat =
        [("INFORMATION", [("rules", ChType.str "text")])] ∧
      (parseTextStructure inputC6 nonceF).categories.map
          (fun c => c.channels.map ChannelSpec.overwrites) =
        [[some [{ roleRefId := "everyone",
                  allow := toString (flagBit "ViewChannel" ||| flagBit "ReadMessageHistory"),
                  deny := "0" }]]] ∧
      (parseTextStructure inputC6 nonceF).roles = []) ∧
    (∀ line : String, ∀ ows, (buildChannelFromLine line).overwrites = some ows →
      ∀ ow ∈ ows, ow.roleRefId = "everyone") := by
  constructor
  · intro nonceF
    exact ⟨rfl, rfl, rfl⟩
  · intro line ows hows ow how
    simp only [buildChannelFromLine] at hows
    split at hows
    · cases hows
      simp only [List.mem_singleton] at how
      rw [how]
    · exact absurd hows (by simp)

/-- Witness for C6: the base-role-only rule applied at a concrete channel
line carrying a bracketed permission list. -/
theorem parseInformation_contract_witness :
    (buildChannelFromLine "x | Permissions: [Speak]").overwrites =
      some [{ roleRefId := "everyone", allow := "2097152", deny := "0" }] ∧
    ({ roleRefId := "everyone", allow := "2097152", deny := "0" } : ChannelOverwrite).roleRefId
      = "everyone" := by
  refine ⟨by decide, ?_⟩
  exact parseInformation_contract.2 "x | Permissions: [Speak]"
    [{ roleRefId := "everyone", allow := "2097152", deny := "0" }] (by decide)
    { roleRefId := "everyone", allow := "2097152", deny := "0" } (by decide)

/-- Accumulating the synonym-table matches over a token list is the
flattening of the per-token matches. -/
theorem foldl_matches_eq (P : List String) (acc : List String) :
    P.foldl (fun acc p => acc ++ matchPerm (permNorm p)) acc =
      acc ++ (P.map (fun p => matchPerm (permNorm p))).flatten := by
  induction P generalizing acc with
  | nil => simp
  | cons p ps ih => simp [ih, List.append_assoc]

/-- Folding OR over flag names from an accumulator. -/
theorem foldl_or_eq (l : List String) (acc : Nat) :
    l.foldl (fun a f => a ||| flagBit f) acc = acc ||| orList (l.map flagBit) := by
  induction l generalizing acc with
  | nil => simp [orList]
  | cons f fs ih => simp [orList, ih, Nat.or_assoc]

/-- OR-fold over an append. -/
theorem orList_append (a b : List Nat) : orList (a ++ b) = orList a ||| orList b := by
  induction a with
  | nil => simp [orList]
  | cons x xs ih =>
    show x ||| orList (xs ++ b) = (x ||| orList xs) ||| orList b
    rw [ih, Nat.or_assoc]

/-- OR-fold over a flattening. -/
theorem orList_flatten (L : List (List Nat)) : orList L.flatten = orList (L.map orList) := by
  induction L with
  | nil => rfl
  | cons a as ih =>
    show orList (a ++ as.flatten) = orList a ||| orList (as.map orList)
    rw [orList_append, ih]

/-- OR-fold is invariant under permutation. -/
theorem orList_perm {a b : List Nat} (h : a.Perm b) : orList a = orList b := by
  induction h with
  | nil => rfl
  | cons x _ ih =>
    simp only [orList, List.foldr_cons] at ih ⊢
    rw [ih]
  | swap x y l =>
    show y ||| (x ||| orList l) = x ||| (y ||| orList l)
    rw [← Nat.or_assoc, Nat.or_comm y x, Nat.or_assoc]
  | trans _ _ ih1 ih2 => exact ih1.trans ih2

/-- The two-phase fold of `permissionsToBitfield` equals the OR of the
per-token canonical bits. -/
theorem permissionsToBitfield_eq_orCanon (P : List String) :
    permissionsToBitfield P = orList (P.map canonPermBit) := by
  unfold permissionsToBitfield
  rw [foldl_matches_eq, foldl_or_eq]
  simp only [List.nil_append, Nat.zero_or]
  rw [List.map_flatten, orList_flatten]
  simp only [List.map_map, canonPermBit]
  rfl

/-- C7: `toBits` returns the bitwise OR of the canonical bits of exactly the
tokens the fixed synonym table recognizes after normalization (unrecognized
tokens contribute nothing and raise no error), and the result is independent
of order and duplicates: `toBits(P) == toBits(P ++ P)` for any permutation
of P. -/
theorem permissionsToBitfield_contract :
    (∀ P : List String, permissionsToBitfield P = orList (P.map canonPermBit)) ∧
    (∀ P Q : List String, P.Perm Q →
      permissionsToBitfield P = permissionsToBitfield Q) ∧
    (∀ P : List String, permissionsToBitfield (P ++ P) = permissionsToBitfield P) ∧
    (∀ P Q : List String, P.Perm Q →
      permissionsToBitfield Q = permissionsToBitfield (P ++ P)) := by
  have hperm : ∀ P Q : List String, P.Perm Q →
      permissionsToBitfield P = permissionsToBitfield Q := by
    intro P Q h
    rw [permissionsToBitfield_eq_orCanon, permissionsToBitfield_eq_orCanon]
    exact orList_perm (h.map canonPermBit)
  have hidem : ∀ P : List String,
      permissionsToBitfield (P ++ P) = permissionsToBitfield P := by
    intro P
    rw [permissionsToBitfield_eq_orCanon, permissionsToBitfield_eq_orCanon,
      List.map_append, orList_append, Nat.or_self]
  exact ⟨permissionsToBitfield_eq_orCanon, hperm, hidem,
    fun P Q h => ((hperm P Q h).symm).trans (hidem P).symm⟩

/-- Witness for C7: order-insensitivity and idempotence at a concrete token
list (including an unrecognized token, which contributes nothing). -/
theorem permissionsToBitfield_contract_witness :
    permissionsToBitfield ["Speak", "nonsense", "Connect"] =
      permissionsToBitfield ["Connect", "Speak", "nonsense"] ∧
    permissionsToBitfield
        (["Speak", "nonsense", "Connect"] ++ ["Speak", "nonsense", "Connect"]) =
      permissionsToBitfield ["Speak", "nonsense", "Connect"] := by
  constructor
  · exact permissionsToBitfield_contract.2.1 ["Speak", "nonsense", "Connect"]
      ["Connect", "Speak", "nonsense"] (by decide)
  · exact permissionsToBitfield_contract.2.2.1 ["Speak", "nonsense", "Connect"]

/-- Summing channel counts by fold equals the sum of the mapped lengths. -/
theorem foldl_add_channels (l : List CategorySpec) (acc : Nat) :
    l.foldl (fun a cat => a + cat.channels.length) acc =
      acc + (l.map (fun c => c.channels.length)).sum := by
  induction l generalizing acc with
  | nil => simp
  | cons c cs ih => simp [ih, Nat.add_assoc]

/-- C8: `parse` is total — it is a function returning a Template for every
raw input — and the returned summary always reports the actual parsed
category and channel counts of that Template. -/
theorem parseTextStructure_summary (raw : String) (nonceF : Nat → String) :
    (parseTextStructure raw nonceF).summary =
      toString (parseTextStructure raw nonceF).categories.length ++ " categories / " ++
      toString ((parseTextStructure raw nonceF).categories.map
        (fun c => c.channels.length)).sum ++ " channels" := by
  simp only [parseTextStructure]
  rw [foldl_add_channels]
  simp

/-- C9 part 1 is stated over a decomposed overwrite list; this is the
Example 4 run: the unresolvable overwrite is skipped, the run does not fail,
the channel exists and the resolvable overwrite on it is applied. -/
theorem overwrite_skip_contract :
    (∀ (g : Guild) (map : List (String × String)) (chanId : String)
        (ows1 : List ChannelOverwrite) (ow : ChannelOverwrite) (ows2 : List ChannelOverwrite),
      resolvedOf map ow = none →
      applyOverwrites g map chanId (ows1 ++ ow :: ows2) =
        applyOverwrites g map chanId (ows1 ++ ows2)) ∧
    (buildServerFromTemplate okPlatform emptyTarget mixedOverwriteTemplate).err = none ∧
    (buildServerFromTemplate okPlatform emptyTarget mixedOverwriteTemplate).guild.channels.map
        LiveChannel.overwrites =
      [[], [{ id := "everyone-base", type := 0, allow := 1024, deny := 0 }]] := by
  refine ⟨?_, by decide, by decide⟩
  intro g map chanId ows1
  induction ows1 generalizing g with
  | nil =>
    intro ow ows2 hres
    cases hget : jsMapGet map ow.roleRefId with
    | none => simp [applyOverwrites, hget]
    | some rid =>
      have hr : rid.data.isEmpty = true := by
        simp only [resolvedOf, hget] at hres
        by_cases h : rid.data.isEmpty
        · exact h
        · simp [h] at hres
      simp [applyOverwrites, hget, hr]
  | cons o os ih =>
    intro ow ows2 hres
    simp only [List.cons_append, applyOverwrites]
    cases hget : jsMapGet map o.roleRefId with
    | none => exact ih g ow ows2 hres
    | some rid =>
      by_cases hr : rid.data.isEmpty
      · simp [hget, hr]
        exact ih g ow ows2 hres
      · simp only [hget, hr]
        cases ha : normalizePermValue o.allow with
        | none => simp
        | some a =>
          cases hd : normalizePermValue o.deny with
          | none => simp
          | some d =>
            simp only [Bool.false_eq_true, if_false, List.append_eq]
            rw [ih _ ow ows2 hres]

/-- Witness for C9: skipping a concrete unresolvable overwrite leaves the
run of the remaining overwrites unchanged. -/
theorem overwrite_skip_contract_witness :
    applyOverwrites emptyTarget [("everyone", "everyone-base")] "chan"
      [{ roleRefId := "nope", allow := "1", deny := "0" },
       { roleRefId := "everyone", allow := "1024", deny := "0" }] =
    applyOverwrites emptyTarget [("everyone", "everyone-base")] "chan"
      [{ roleRefId := "everyone", allow := "1024", deny := "0" }] :=
  overwrite_skip_contract.1 emptyTarget [("everyone", "everyone-base")] "chan" []
    { roleRefId := "nope", allow := "1", deny := "0" }
    [{ roleRefId := "everyone", allow := "1024", deny := "0" }] (by decide)

/-- Lookup on the empty map. -/
theorem jsMapGet_nil {α : Type} (k : String) :
    jsMapGet ([] : List (String × α)) k = none := rfl

/-- Lookup-on-cons unfolding. -/
theorem jsMapGet_cons {α : Type} (kv : String × α) (m : List (String × α)) (k : String) :
    jsMapGet (kv :: m) k = if kv.1 == k then some kv.2 else jsMapGet m k := by
  cases h : kv.1 == k <;> simp [jsMapGet, List.find?, h]

/-- Lookup after setting the same key. -/
theorem jsMapGet_set_self {α : Type} (m : List (String × α)) (k : String) (v : α) :
    jsMapGet (jsMapSet m k v) k = some v := by
  induction m with
  | nil => simp [jsMapSet, jsMapGet_cons]
  | cons kv rest ih =>
    by_cases h : (kv.1 == k) = true
    · simp [jsMapSet, h, jsMapGet_cons]
    · simp only [jsMapSet, h, if_false, Bool.false_eq_true]
      rw [jsMapGet_cons]
      simp [h, ih]

/-- Lookup after setting a different key. -/
theorem jsMapGet_set_ne {α : Type} (m : List (String × α)) (k k' : String) (v : α)
    (h : k' ≠ k) : jsMapGet (jsMapSet m k v) k' = jsMapGet m k' := by
  have hkk : (k == k') = false := beq_eq_false_iff_ne.mpr (Ne.symm h)
  induction m with
  | nil => simp [jsMapSet, jsMapGet_cons, hkk, jsMapGet_nil]
  | cons kv rest ih =>
    by_cases hkv : (kv.1 == k) = true
    · have hk1 : kv.1 = k := beq_iff_eq.mp hkv
      simp [jsMapSet, hkv, jsMapGet_cons, hk1, hkk]
    · simp only [jsMapSet, hkv, if_false, Bool.false_eq_true]
      rw [jsMapGet_cons, jsMapGet_cons, ih]

/-- Fresh platform ids are injective in the counter. -/
theorem freshId_inj {a b : Nat} (h : freshId a = freshId b) : a = b := by
  have hd := congrArg String.data h
  simp only [freshId] at hd
  have hlen := congrArg List.length hd
  simp only [List.length_cons, List.length_replicate] at hlen
  omega

/-- Fresh platform ids differ from the empty target's base role id. -/
theorem freshId_ne_everyoneBase (k : Nat) : freshId k ≠ "everyone-base" := by
  intro h
  have h0 : ("everyone-base".data).head? = some 'e' := rfl
  rw [← congrArg String.data h] at h0
  simp [freshId] at h0

/-- Fresh platform ids are truthy (nonempty). -/
theorem freshId_data_ne_nil (k : Nat) : (freshId k).data.isEmpty = false := rfl

/-- Role phase characterization: when every non-skipped RoleSpec's permission
value resolves, the phase completes without error and issues exactly one
role-creation call per non-skipped RoleSpec, in sequence order. -/
theorem ensureRolesAux_run (tpls : List RoleSpec) :
    ∀ (g : Guild) (map : List (String × String)),
    (∀ r ∈ tpls, skipRole g.everyoneId r = false → (normalizePermValue r.permissions).isSome) →
    (ensureRolesAux g map tpls).2.2.2 = none ∧
    (ensureRolesAux g map tpls).2.1 =
      (tpls.filter (fun r => !skipRole g.everyoneId r)).map mkRoleCall := by
  induction tpls with
  | nil => intro g map _; simp [ensureRolesAux]
  | cons r rest ih =>
    intro g map hperm
    cases hs : skipRole g.everyoneId r with
    | true =>
      have hrest := ih g (jsMapSet map r.refId g.everyoneId)
        (fun r' h' hsk => hperm r' (List.mem_cons_of_mem _ h') hsk)
      simp only [ensureRolesAux, hs, if_true]
      refine ⟨hrest.1, ?_⟩
      rw [hrest.2]
      simp [List.filter_cons, hs]
    | false =>
      obtain ⟨pval, hp⟩ := Option.isSome_iff_exists.mp
        (hperm r (List.mem_cons_self _ _) hs)
      have hg2 : ((createRoleRaw g r.name r.color r.hoist r.mentionable pval).1).everyoneId
          = g.everyoneId := rfl
      have hrest := ih (createRoleRaw g r.name r.color r.hoist r.mentionable pval).1
        (jsMapSet map r.refId (createRoleRaw g r.name r.color r.hoist r.mentionable pval).2)
        (fun r' h' hsk => hperm r' (List.mem_cons_of_mem _ h') (by rwa [hg2] at hsk))
      simp only [ensureRolesAux, hs, Bool.false_eq_true, if_false, hp]
      refine ⟨hrest.1, ?_⟩
      rw [List.filter_cons]
      simp only [hs, Bool.not_false, if_true, List.map_cons]
      refine congrArg₂ List.cons ?_ ?_
      · simp [mkRoleCall, hp]
      · rw [hrest.2]
        simp only [hg2]

/-- Keys not belonging to any processed RoleSpec are untouched by the role
phase. -/
theorem ensureRolesAux_map_frame (tpls : List RoleSpec) :
    ∀ (g : Guild) (map : List (String × String)) (k : String),
    k ∉ tpls.map RoleSpec.refId →
    jsMapGet (ensureRolesAux g map tpls).2.2.1 k = jsMapGet map k := by
  induction tpls with
  | nil => intro g map k _; simp [ensureRolesAux]
  | cons r rest ih =>
    intro g map k hk
    have hk1 : k ≠ r.refId := fun h => hk (by simp [h])
    have hk2 : k ∉ rest.map RoleSpec.refId := fun h => hk (by simp [h])
    cases hs : skipRole g.everyoneId r with
    | true =>
      simp only [ensureRolesAux, hs, if_true]
      rw [ih g _ k hk2, jsMapGet_set_ne _ _ _ _ hk1]
    | false =>
      cases hp : normalizePermValue r.permissions with
      | none => simp only [ensureRolesAux, hs, Bool.false_eq_true, if_false, hp]
      | some pval =>
        simp only [ensureRolesAux, hs, Bool.false_eq_true, if_false, hp]
        rw [ih _ _ k hk2, jsMapGet_set_ne _ _ _ _ hk1]

/-- Final binding of each RoleSpec's refId after the role phase: skipped
entries map to the base role id, created entries to a freshly minted id. -/
theorem ensureRolesAux_lookup (tpls : List RoleSpec) :
    ∀ (g : Guild) (map : List (String × String)),
    (∀ r ∈ tpls, skipRole g.everyoneId r = false → (normalizePermValue r.permissions).isSome) →
    (tpls.map RoleSpec.refId).Nodup →
    ∀ r ∈ tpls,
      (skipRole g.everyoneId r = true →
        jsMapGet (ensureRolesAux g map tpls).2.2.1 r.refId = some g.everyoneId) ∧
      (skipRole g.everyoneId r = false →
        ∃ k, jsMapGet (ensureRolesAux g map tpls).2.2.1 r.refId = some (freshId k)) := by
  induction tpls with
  | nil => intro g map _ _ r hr; exact absurd hr (List.not_mem_nil r)
  | cons r0 rest ih =>
    intro g map hperm hnd r hr
    have hnd0 : r0.refId ∉ rest.map RoleSpec.refId := by
      simp only [List.map_cons, List.nodup_cons] at hnd
      exact hnd.1
    have hndr : (rest.map RoleSpec.refId).Nodup := by
      simp only [List.map_cons, List.nodup_cons] at hnd
      exact hnd.2
    rcases List.mem_cons.mp hr with rfl | hmem
    · constructor
      · intro hs
        simp only [ensureRolesAux, hs, if_true]
        rw [ensureRolesAux_map_frame rest _ _ _ hnd0]
        exact jsMapGet_set_self _ _ _
      · intro hs
        obtain ⟨pval, hp⟩ := Option.isSome_iff_exists.mp
          (hperm r (List.mem_cons_self _ _) hs)
        simp only [ensureRolesAux, hs, Bool.false_eq_true, if_false, hp]
        rw [ensureRolesAux_map_frame rest _ _ _ hnd0, jsMapGet_set_self]
        exact ⟨g.nextId, rfl⟩
    · cases hs0 : skipRole g.everyoneId r0 with
      | true =>
        have hrec := ih g (jsMapSet map r0.refId g.everyoneId)
          (fun r' h' hsk => hperm r' (List.mem_cons_of_mem _ h') hsk) hndr r hmem
        simpa only [ensureRolesAux, hs0, if_true] using hrec
      | false =>
        obtain ⟨pval, hp⟩ := Option.isSome_iff_exists.mp
          (hperm r0 (List.mem_cons_self _ _) hs0)
        have hg2 : ((createRoleRaw g r0.name r0.color r0.hoist r0.mentionable pval).1).everyoneId
            = g.everyoneId := rfl
        have hrec := ih (createRoleRaw g r0.name r0.color r0.hoist r0.mentionable pval).1
          (jsMapSet map r0.refId (createRoleRaw g r0.name r0.color r0.hoist r0.mentionable pval).2)
          (fun r' h' hsk => hperm r' (List.mem_cons_of_mem _ h') (by rwa [hg2] at hsk))
          hndr r hmem
        rw [hg2] at hrec
        simpa only [ensureRolesAux, hs0, Bool.false_eq_true, if_false, hp] using hrec

/-- Every call attempted by `createChannelSafe` is a channel creation of
either the given payload or its topic-stripped clone. -/
theorem createChannelSafe_calls_sub (p : Platform) (g : Guild) (payload : Payload) :
    ∀ c ∈ (createChannelSafe p g payload).calls,
      c = .createChannel payload ∨ c = .createChannel { payload with topic := none } := by
  intro c hc
  unfold createChannelSafe at hc
  cases hce : p.chanErr payload with
  | none =>
    simp only [hce] at hc
    simp at hc
    exact Or.inl hc
  | some e =>
    simp only [hce] at hc
    by_cases htr : (topicInvalidErr e && truthyOptStr payload.topic) = true
    · rw [if_pos htr] at hc
      cases hcl : p.chanErr { payload with topic := none } <;> simp only [hcl] at hc <;>
        simp at hc <;> tauto
    · rw [if_neg htr] at hc
      simp at hc
      exact Or.inl hc

/-- Every call issued by the overwrite loop is an overwrite creation. -/
theorem applyOverwrites_calls_shape (ows : List ChannelOverwrite) :
    ∀ (g : Guild) (map : List (String × String)) (chanId : String),
    ∀ c ∈ (applyOverwrites g map chanId ows).2.1,
      ∃ ch rid a d, c = .createOverwrite ch rid a d := by
  induction ows with
  | nil => intro g map chanId c hc; simp [applyOverwrites] at hc
  | cons ow rest ih =>
    intro g map chanId c hc
    rw [applyOverwrites] at hc
    cases hget : jsMapGet map ow.roleRefId with
    | none =>
      simp only [hget] at hc
      exact ih g map chanId c hc
    | some rid =>
      simp only [hget] at hc
      by_cases hr : rid.data.isEmpty = true
      · rw [if_pos hr] at hc
        exact ih g map chanId c hc
      · rw [if_neg hr] at hc
        cases ha : normalizePermValue ow.allow with
        | none => simp only [ha] at hc; simp at hc
        | some a =>
          simp only [ha] at hc
          cases hd : normalizePermValue ow.deny with
          | none => simp only [hd] at hc; simp at hc
          | some d =>
            simp only [hd] at hc
            simp only [List.mem_cons] at hc
            rcases hc with rfl | hc
            · exact ⟨chanId, rid, a, d, rfl⟩
            · exact ih _ map chanId c hc

/-- No call issued in the channel loop is a role creation. -/
theorem buildChannelsLoop_calls_not_role (chs : List ChannelSpec) :
    ∀ (p : Platform) (g : Guild) (map : List (String × String)) (parentId : String),
    ∀ c ∈ (buildChannelsLoop p g map parentId chs).2.1, isCreateRole c = false := by
  induction chs with
  | nil => intro p g map parentId c hc; simp [buildChannelsLoop] at hc
  | cons ch rest ih =>
    intro p g map parentId c hc
    simp only [buildChannelsLoop] at hc
    have hatt : ∀ c ∈ (createChannelSafe p g (channelPayload parentId ch)).calls,
        isCreateRole c = false := by
      intro c' hc'
      rcases createChannelSafe_calls_sub p g (channelPayload parentId ch) c' hc' with h | h <;>
        rw [h] <;> rfl
    cases hres : (createChannelSafe p g (channelPayload parentId ch)).result with
    | error e =>
      simp only [hres] at hc
      exact hatt c hc
    | ok chanId =>
      simp only [hres] at hc
      cases hov : ch.overwrites with
      | none =>
        simp only [hov, List.append_nil, List.mem_append] at hc
        rcases hc with hc | hc
        · exact hatt c hc
        · exact ih p _ map parentId c hc
      | some ows =>
        simp only [hov] at hc
        cases herr : (applyOverwrites (createChannelSafe p g (channelPayload parentId ch)).guild
            map chanId ows).2.2 with
        | some e =>
          simp only [herr, List.mem_append] at hc
          rcases hc with hc | hc
          · exact hatt c hc
          · obtain ⟨ch', rid, a, d, rfl⟩ := applyOverwrites_calls_shape ows _ map chanId c hc
            rfl
        | none =>
          simp only [herr, List.mem_append] at hc
          rcases hc with (hc | hc) | hc
          · exact hatt c hc
          · obtain ⟨ch', rid, a, d, rfl⟩ := applyOverwrites_calls_shape ows _ map chanId c hc
            rfl
          · exact ih p _ map parentId c hc

/-- No call issued in the category loop is a role creation. -/
theorem buildCategoriesLoop_calls_not_role (cats : List CategorySpec) :
    ∀ (p : Platform) (g : Guild) (map : List (String × String)),
    ∀ c ∈ (buildCategoriesLoop p g map cats).2.1, isCreateRole c = false := by
  induction cats with
  | nil => intro p g map c hc; simp [buildCategoriesLoop] at hc
  | cons cat rest ih =>
    intro p g map c hc
    simp only [buildCategoriesLoop] at hc
    cases hce : p.chanErr { name := sanitizeName (jsOrStr cat.name "Category"), type := 4 } with
    | some e =>
      simp only [hce] at hc
      simp only [List.mem_singleton] at hc
      rw [hc]; rfl
    | none =>
      simp only [hce] at hc
      cases herr : (buildChannelsLoop p
          (createChannelRaw g { name := sanitizeName (jsOrStr cat.name "Category"), type := 4 }).1
          map
          (createChannelRaw g { name := sanitizeName (jsOrStr cat.name "Category"), type := 4 }).2
          cat.channels).2.2 with
      | some e =>
        simp only [herr] at hc
        simp only [List.mem_cons] at hc
        rcases hc with rfl | hc
        · rfl
        · exact buildChannelsLoop_calls_not_role cat.channels p _ map _ c hc
      | none =>
        simp only [herr] at hc
        simp only [List.mem_cons, List.mem_append] at hc
        rcases hc with rfl | hc | hc
        · rfl
        · exact buildChannelsLoop_calls_not_role cat.channels p _ map _ c hc
        · exact ih p _ map c hc

/-- C3 counterexample: the claim that exactly the RoleSpecs flagged
`isEveryone` are mapped to the base role with no creation call — and that
every other RoleSpec causes exactly one creation call — fails on the code:
a RoleSpec with `isEveryone = false` whose `refId` happens to equal the
target's base role id is also skipped, producing zero role-creation calls. -/
theorem role_refid_collision_cex :
    collidingRoleTemplate.roles.map RoleSpec.isEveryone = [false] ∧
    (buildServerFromTemplate okPlatform emptyTarget collidingRoleTemplate).err = none ∧
    (buildServerFromTemplate okPlatform emptyTarget collidingRoleTemplate).calls = [] := by
  decide

/-- C3 amended: during provisioning, exactly the RoleSpecs flagged
`isEveryone` or whose `refId` equals the target's base role live id are
mapped to the pre-existing base role with no role-creation call; every other
RoleSpec (with an interpretable permission value) causes exactly one
role-creation call, issued in sequence order; and every role-creation call
completes before the first category or channel creation. -/
theorem provision_role_phase_contract (p : Platform) (g : Guild) (t : Template)
    (hFresh : ∀ k, freshId k ≠ g.everyoneId)
    (hnd : (t.roles.map RoleSpec.refId).Nodup)
    (hperm : ∀ r ∈ t.roles, skipRole g.everyoneId r = false →
      (normalizePermValue r.permissions).isSome) :
    (ensureRoles g t.roles).2.2.2 = none ∧
    (ensureRoles g t.roles).2.1 =
      (t.roles.filter (fun r => !skipRole g.everyoneId r)).map mkRoleCall ∧
    (∀ r ∈ t.roles,
      (jsMapGet (ensureRoles g t.roles).2.2.1 r.refId = some g.everyoneId ↔
        skipRole g.everyoneId r = true)) ∧
    (∃ rest, (buildServerFromTemplate p g t).calls = (ensureRoles g t.roles).2.1 ++ rest ∧
      ∀ c ∈ rest, isCreateRole c = false) := by
  have hrun := ensureRolesAux_run t.roles g (jsMapSet [] "everyone" g.everyoneId) hperm
  have hlook := ensureRolesAux_lookup t.roles g (jsMapSet [] "everyone" g.everyoneId) hperm hnd
  refine ⟨hrun.1, hrun.2, ?_, ?_⟩
  · intro r hr
    constructor
    · intro hget
      cases hs : skipRole g.everyoneId r with
      | true => rfl
      | false =>
        obtain ⟨k, hk⟩ := ((hlook r hr).2) hs
        rw [show ensureRoles g t.roles = ensureRolesAux g (jsMapSet [] "everyone" g.everyoneId) t.roles from rfl] at hget
        rw [hk] at hget
        exact absurd (Option.some.inj hget) (hFresh k)
    · intro hs
      exact (hlook r hr).1 hs
  · refine ⟨(buildCategoriesLoop p (ensureRoles g t.roles).1
      (ensureRoles g t.roles).2.2.1 t.categories).2.1, ?_, ?_⟩
    · have herr0 : (ensureRoles g t.roles).2.2.2 = none := hrun.1
      simp only [buildServerFromTemplate, herr0]
    · exact buildCategoriesLoop_calls_not_role t.categories p _ _

/-- Witness for C3 (amended): a concrete run with one skipped and one
created role. -/
theorem provision_role_phase_contract_witness :
    (ensureRoles emptyTarget twoRoleTemplate.roles).2.2.2 = none ∧
    (ensureRoles emptyTarget twoRoleTemplate.roles).2.1 =
      (twoRoleTemplate.roles.filter
        (fun r => !skipRole emptyTarget.everyoneId r)).map mkRoleCall := by
  have h := provision_role_phase_contract okPlatform emptyTarget twoRoleTemplate
    freshId_ne_everyoneBase (by decide) (by decide)
  exact ⟨h.1, h.2.1⟩

/-- Sanitized names are nonempty and at most 90 characters. -/
theorem sanitizeName_good (s : String) :
    (sanitizeName s).data.length ≤ 90 ∧ sanitizeName s ≠ "" := by
  unfold sanitizeName
  by_cases h : (jsTrim s).data.isEmpty = true
  · simp only [h, if_true]
    exact ⟨by decide, by decide⟩
  · simp only [h, Bool.false_eq_true, if_false]
    constructor
    · show ((jsTrim s).data.take 90).length ≤ 90
      rw [List.length_take]
      exact min_le_left _ _
    · intro hcon
      have hd := congrArg String.data hcon
      have hnil : (jsTrim s).data.take 90 = [] := hd
      have : (jsTrim s).data = [] := by
        rcases List.take_eq_nil_iff.mp hnil with h90 | hnl
        · exact absurd h90 (by decide)
        · exact hnl
      rw [this] at h
      exact h rfl

/-- Payload topics produced by truncation are at most 1024 characters. -/
theorem payloadTopic_le (o : Option String) (t : String) (h : payloadTopic o = some t) :
    t.data.length ≤ 1024 := by
  cases o with
  | none => simp [payloadTopic] at h
  | some s =>
    simp only [payloadTopic] at h
    by_cases he : s.data.isEmpty = true
    · simp [he] at h
    · simp only [he, Bool.false_eq_true, if_false, Option.some.injEq] at h
      rw [← h]
      show (s.data.take 1024).length ≤ 1024
      rw [List.length_take]
      exact min_le_left _ _

/-- The payload assembled for a ChannelSpec satisfies the name and topic
bounds. -/
theorem goodCall_channelPayload (parentId : String) (ch : ChannelSpec) :
    GoodCall (.createChannel (channelPayload parentId ch)) := by
  unfold GoodCall channelPayload
  by_cases hv : isVoiceType ch.type = true
  · simp only [hv, if_true]
    exact ⟨(sanitizeName_good _).1, (sanitizeName_good _).2, fun t ht => by simp at ht⟩
  · simp only [hv, Bool.false_eq_true, if_false]
    exact ⟨(sanitizeName_good _).1, (sanitizeName_good _).2,
      fun t ht => payloadTopic_le ch.topic t ht⟩

/-- The payload assembled for a category satisfies the bounds. -/
theorem goodCall_catPayload (cat : CategorySpec) :
    GoodCall (.createChannel
      { name := sanitizeName (jsOrStr cat.name "Category"), type := 4 }) := by
  exact ⟨(sanitizeName_good _).1, (sanitizeName_good _).2, fun t ht => by simp at ht⟩

/-- Removing the topic preserves the bounds. -/
theorem goodCall_clone (pl : Payload) (h : GoodCall (.createChannel pl)) :
    GoodCall (.createChannel { pl with topic := none }) :=
  ⟨h.1, h.2.1, fun t ht => by simp at ht⟩

/-- All calls attempted by `createChannelSafe` satisfy the bounds when the
original payload does. -/
theorem createChannelSafe_calls_good (p : Platform) (g : Guild) (payload : Payload)
    (h : GoodCall (.createChannel payload)) :
    ∀ c ∈ (createChannelSafe p g payload).calls, GoodCall c := by
  intro c hc
  rcases createChannelSafe_calls_sub p g payload c hc with h1 | h1
  · rw [h1]; exact h
  · rw [h1]; exact goodCall_clone payload h

/-- All role-phase calls are role creations. -/
theorem ensureRolesAux_calls_role (tpls : List RoleSpec) :
    ∀ (g : Guild) (map : List (String × String)),
    ∀ c ∈ (ensureRolesAux g map tpls).2.1,
      ∃ n col h m pm, c = ApiCall.createRole n col h m pm := by
  induction tpls with
  | nil => intro g map c hc; simp [ensureRolesAux] at hc
  | cons r rest ih =>
    intro g map c hc
    cases hs : skipRole g.everyoneId r with
    | true =>
      simp only [ensureRolesAux, hs, if_true] at hc
      exact ih g _ c hc
    | false =>
      cases hp : normalizePermValue r.permissions with
      | none =>
        simp only [ensureRolesAux, hs, Bool.false_eq_true, if_false, hp] at hc
        simp at hc
      | some pval =>
        simp only [ensureRolesAux, hs, Bool.false_eq_true, if_false, hp,
          List.mem_cons] at hc
        rcases hc with rfl | hc
        · exact ⟨r.name, r.color, r.hoist, r.mentionable, pval, rfl⟩
        · exact ih _ _ c hc

/-- All channel-loop calls satisfy the bounds. -/
theorem buildChannelsLoop_calls_good (chs : List ChannelSpec) :
    ∀ (p : Platform) (g : Guild) (map : List (String × String)) (parentId : String),
    ∀ c ∈ (buildChannelsLoop p g map parentId chs).2.1, GoodCall c := by
  induction chs with
  | nil => intro p g map parentId c hc; simp [buildChannelsLoop] at hc
  | cons ch rest ih =>
    intro p g map parentId c hc
    simp only [buildChannelsLoop] at hc
    have hatt := createChannelSafe_calls_good p g (channelPayload parentId ch)
      (goodCall_channelPayload parentId ch)
    cases hres : (createChannelSafe p g (channelPayload parentId ch)).result with
    | error e =>
      simp only [hres] at hc
      exact hatt c hc
    | ok chanId =>
      simp only [hres] at hc
      cases hov : ch.overwrites with
      | none =>
        simp only [hov, List.append_nil, List.mem_append] at hc
        rcases hc with hc | hc
        · exact hatt c hc
        · exact ih p _ map parentId c hc
      | some ows =>
        simp only [hov] at hc
        cases herr : (applyOverwrites (createChannelSafe p g (channelPayload parentId ch)).guild
            map chanId ows).2.2 with
        | some e =>
          simp only [herr, List.mem_append] at hc
          rcases hc with hc | hc
          · exact hatt c hc
          · obtain ⟨ch', rid, a, d, rfl⟩ := applyOverwrites_calls_shape ows _ map chanId c hc
            trivial
        | none =>
          simp only [herr, List.mem_append] at hc
          rcases hc with (hc | hc) | hc
          · exact hatt c hc
          · obtain ⟨ch', rid, a, d, rfl⟩ := applyOverwrites_calls_shape ows _ map chanId c hc
            trivial
          · exact ih p _ map parentId c hc

/-- All category-loop calls satisfy the bounds. -/
theorem buildCategoriesLoop_calls_good (cats : List CategorySpec) :
    ∀ (p : Platform) (g : Guild) (map : List (String × String)),
    ∀ c ∈ (buildCategoriesLoop p g map cats).2.1, GoodCall c := by
  induction cats with
  | nil => intro p g map c hc; simp [buildCategoriesLoop] at hc
  | cons cat rest ih =>
    intro p g map c hc
    simp only [buildCategoriesLoop] at hc
    cases hce : p.chanErr { name := sanitizeName (jsOrStr cat.name "Category"), type := 4 } with
    | some e =>
      simp only [hce, List.mem_singleton] at hc
      rw [hc]
      exact goodCall_catPayload cat
    | none =>
      simp only [hce] at hc
      cases herr : (buildChannelsLoop p
          (createChannelRaw g { name := sanitizeName (jsOrStr cat.name "Category"), type := 4 }).1
          map
          (createChannelRaw g { name := sanitizeName (jsOrStr cat.name "Category"), type := 4 }).2
          cat.channels).2.2 with
      | some e =>
        simp only [herr, List.mem_cons] at hc
        rcases hc with rfl | hc
        · exact goodCall_catPayload cat
        · exact buildChannelsLoop_calls_good cat.channels p _ map _ c hc
      | none =>
        simp only [herr, List.mem_cons, List.mem_append] at hc
        rcases hc with rfl | hc | hc
        · exact goodCall_catPayload cat
        · exact buildChannelsLoop_calls_good cat.channels p _ map _ c hc
        · exact ih p _ map c hc

/-- C10 counterexample: the claim that a name empty after trimming becomes
"channel" fails for categories — an empty category name defaults to
"Category" before sanitization. -/
theorem category_default_name_cex :
    (jsTrim "").data.isEmpty = true ∧
    (buildServerFromTemplate okPlatform emptyTarget emptyCatNameTemplate).calls =
      [.createChannel { name := "Category", type := 4 }] ∧
    ("Category" : String) ≠ "channel" := by
  decide

/-- C10 amended: before every creation call, provisioning truncates category
and channel names to their first 90 characters after trimming (a channel
name that is falsy or empty after trimming becomes "channel"; a falsy
category name instead defaults to "Category" before sanitization) and
truncates a text channel's topic to its first 1024 characters, so every
channel-creation payload in any run carries a nonempty name of at most 90
characters and a topic of at most 1024 characters. -/
theorem provision_truncation_contract :
    (∀ (p : Platform) (g : Guild) (t : Template),
      ∀ c ∈ (buildServerFromTemplate p g t).calls, GoodCall c) ∧
    (∀ s : String, (jsTrim s).data.isEmpty = true → sanitizeName s = "channel") ∧
    (∀ s : String, (jsTrim s).data.isEmpty = false →
      sanitizeName s = ⟨(jsTrim s).data.take 90⟩) ∧
    (∀ (parentId : String) (ch : ChannelSpec),
      (channelPayload parentId ch).name = sanitizeName (jsOrStr ch.name "channel")) := by
  refine ⟨?_, ?_, ?_, ?_⟩
  · intro p g t c hc
    simp only [buildServerFromTemplate] at hc
    cases herr : (ensureRoles g t.roles).2.2.2 with
    | some e =>
      simp only [herr] at hc
      obtain ⟨n, col, h, m, pm, rfl⟩ := ensureRolesAux_calls_role t.roles g _ c hc
      trivial
    | none =>
      simp only [herr, List.mem_append] at hc
      rcases hc with hc | hc
      · obtain ⟨n, col, h, m, pm, rfl⟩ := ensureRolesAux_calls_role t.roles g _ c hc
        trivial
      · exact buildCategoriesLoop_calls_good t.categories p _ _ c hc
  · intro s h
    unfold sanitizeName
    simp only [h, if_true]
  · intro s h
    unfold sanitizeName
    simp only [h, Bool.false_eq_true, if_false]
  · intro parentId ch
    unfold channelPayload
    by_cases hv : isVoiceType ch.type = true
    · simp only [hv, if_true]
    · simp only [hv, Bool.false_eq_true, if_false]

/-- Witness for C10 (amended): a whitespace-only name trims to empty and
sanitizes to "channel". -/
theorem provision_truncation_contract_witness :
    sanitizeName " " = "channel" :=
  provision_truncation_contract.2.1 " " (by decide)

/-- Adding an overwrite to a channel changes no channel shape. -/
theorem addOverwrite_shape (g : Guild) (chanId : String) (ow : LiveOverwrite) :
    (addOverwrite g chanId ow).channels.map eraseOws = g.channels.map eraseOws ∧
    (addOverwrite g chanId ow).roles = g.roles ∧
    (addOverwrite g chanId ow).everyoneId = g.everyoneId ∧
    (addOverwrite g chanId ow).nextId = g.nextId := by
  refine ⟨?_, rfl, rfl, rfl⟩
  show (g.channels.map (fun c =>
      if c.id == chanId then { c with overwrites := c.overwrites ++ [ow] } else c)).map eraseOws
    = g.channels.map eraseOws
  rw [List.map_map]
  refine List.map_congr_left ?_
  intro c _
  show eraseOws (if (c.id == chanId) = true then _ else c) = eraseOws c
  by_cases h : (c.id == chanId) = true
  · rw [if_pos h]; rfl
  · rw [if_neg h]

/-- On resolvable permission values the overwrite loop never fails and never
changes any channel shape, the role list, the base role id or the id
counter. -/
theorem applyOverwrites_preserve (ows : List ChannelOverwrite) :
    ∀ (g : Guild) (map : List (String × String)) (chanId : String),
    (∀ ow ∈ ows, (normalizePermValue ow.allow).isSome ∧ (normalizePermValue ow.deny).isSome) →
    (applyOverwrites g map chanId ows).2.2 = none ∧
    (applyOverwrites g map chanId ows).1.channels.map eraseOws = g.channels.map eraseOws ∧
    (applyOverwrites g map chanId ows).1.roles = g.roles ∧
    (applyOverwrites g map chanId ows).1.everyoneId = g.everyoneId ∧
    (applyOverwrites g map chanId ows).1.nextId = g.nextId := by
  induction ows with
  | nil => intro g map chanId _; simp [applyOverwrites]
  | cons ow rest ih =>
    intro g map chanId hok
    have hhd := hok ow (List.mem_cons_self _ _)
    have htl := fun ow' h' => hok ow' (List.mem_cons_of_mem _ h')
    rw [applyOverwrites]
    cases hget : jsMapGet map ow.roleRefId with
    | none => exact ih g map chanId htl
    | some rid =>
      by_cases hr : rid.data.isEmpty = true
      · simp only [hr, if_true]
        exact ih g map chanId htl
      · simp only [hr, Bool.false_eq_true, if_false]
        obtain ⟨a, ha⟩ := Option.isSome_iff_exists.mp hhd.1
        obtain ⟨d, hd⟩ := Option.isSome_iff_exists.mp hhd.2
        simp only [ha, hd]
        have hadd := addOverwrite_shape g chanId { id := rid, type := 0, allow := a, deny := d }
        have hrec := ih (addOverwrite g chanId { id := rid, type := 0, allow := a, deny := d })
          map chanId htl
        exact ⟨hrec.1, hrec.2.1.trans hadd.1, hrec.2.2.1.trans hadd.2.1,
          hrec.2.2.2.1.trans hadd.2.2.1, hrec.2.2.2.2.trans hadd.2.2.2⟩

/-- One expected live channel per ChannelSpec. -/
theorem expChansAux_length (chs : List ChannelSpec) :
    ∀ (parentId : String) (pos idn : Nat),
    (expChansAux parentId pos idn chs).length = chs.length := by
  induction chs with
  | nil => intro parentId pos idn; rfl
  | cons c cs ihc => intro parentId pos idn; simp [expChansAux, ihc]

/-- Channel-loop characterization on a failure-free platform: no error, and
the guild gains exactly the expected channel shapes in order, with the id
counter advanced once per channel. -/
theorem buildChannelsLoop_ok (chs : List ChannelSpec) :
    ∀ (g : Guild) (map : List (String × String)) (parentId : String),
    (∀ ch ∈ chs, owsOk ch = true) →
    (buildChannelsLoop okPlatform g map parentId chs).2.2 = none ∧
    (buildChannelsLoop okPlatform g map parentId chs).1.channels.map eraseOws =
      g.channels.map eraseOws ++ expChansAux parentId g.channels.length g.nextId chs ∧
    (buildChannelsLoop okPlatform g map parentId chs).1.roles = g.roles ∧
    (buildChannelsLoop okPlatform g map parentId chs).1.everyoneId = g.everyoneId ∧
    (buildChannelsLoop okPlatform g map parentId chs).1.nextId = g.nextId + chs.length := by
  induction chs with
  | nil => intro g map parentId _; simp [buildChannelsLoop, expChansAux]
  | cons ch rest ih =>
    intro g map parentId hok
    have hatt : createChannelSafe okPlatform g (channelPayload parentId ch) =
        { guild := (createChannelRaw g (channelPayload parentId ch)).1,
          calls := [.createChannel (channelPayload parentId ch)],
          result := .ok (freshId g.nextId) } := rfl
    have hg1c : ((createChannelRaw g (channelPayload parentId ch)).1).channels.map eraseOws =
        g.channels.map eraseOws ++
          [expChanLive parentId g.channels.length g.nextId ch] := by
      show ((g.channels ++ [_]).map eraseOws) = _
      rw [List.map_append]
      rfl
    have hg1len : ((createChannelRaw g (channelPayload parentId ch)).1).channels.length =
        g.channels.length + 1 := by
      show (g.channels ++ [_]).length = _
      simp
    have hg1n : ((createChannelRaw g (channelPayload parentId ch)).1).nextId =
        g.nextId + 1 := rfl
    simp only [buildChannelsLoop, hatt]
    cases hov : ch.overwrites with
    | none =>
      have hrec := ih (createChannelRaw g (channelPayload parentId ch)).1 map parentId
        (fun ch' h' => hok ch' (List.mem_cons_of_mem _ h'))
      refine ⟨hrec.1, ?_, hrec.2.2.1, hrec.2.2.2.1, ?_⟩
      · rw [hrec.2.1, hg1c, hg1len, hg1n, List.append_assoc]
        rfl
      · rw [hrec.2.2.2.2, hg1n]
        simp only [List.length_cons]
        omega
    | some ows =>
      have hfor : ∀ ow ∈ ows,
          (normalizePermValue ow.allow).isSome ∧ (normalizePermValue ow.deny).isSome := by
        have h0 := hok ch (List.mem_cons_self _ _)
        unfold owsOk at h0
        rw [hov] at h0
        simp only [List.all_eq_true, Bool.and_eq_true] at h0
        intro ow how
        exact h0 ow how
      have hpre := applyOverwrites_preserve ows
        (createChannelRaw g (channelPayload parentId ch)).1 map (freshId g.nextId) hfor
      simp only [hpre.1]
      have hg2len : (applyOverwrites (createChannelRaw g (channelPayload parentId ch)).1
          map (freshId g.nextId) ows).1.channels.length = g.channels.length + 1 := by
        have hl := congrArg List.length hpre.2.1
        simp only [List.length_map] at hl
        rw [hl, hg1len]
      have hrec := ih (applyOverwrites (createChannelRaw g (channelPayload parentId ch)).1
          map (freshId g.nextId) ows).1 map parentId
        (fun ch' h' => hok ch' (List.mem_cons_of_mem _ h'))
      refine ⟨hrec.1, ?_, ?_, ?_, ?_⟩
      · rw [hrec.2.1, hpre.2.1, hg1c, hg2len, hpre.2.2.2.2, hg1n, List.append_assoc]
        rfl
      · rw [hrec.2.2.1, hpre.2.2.1]
        rfl
      · rw [hrec.2.2.2.1, hpre.2.2.2.1]
        rfl
      · rw [hrec.2.2.2.2, hpre.2.2.2.2, hg1n]
        simp only [List.length_cons]
        omega

/-- Category-loop characterization on a failure-free platform: no error, and
the guild gains exactly the expected category/channel shapes in order. -/
theorem buildCategoriesLoop_ok (cats : List CategorySpec) :
    ∀ (g : Guild) (map : List (String × String)),
    (∀ cat ∈ cats, ∀ ch ∈ cat.channels, owsOk ch = true) →
    (buildCategoriesLoop okPlatform g map cats).2.2 = none ∧
    (buildCategoriesLoop okPlatform g map cats).1.channels.map eraseOws =
      g.channels.map eraseOws ++ expCatsAux g.channels.length g.nextId cats ∧
    (buildCategoriesLoop okPlatform g map cats).1.roles = g.roles ∧
    (buildCategoriesLoop okPlatform g map cats).1.everyoneId = g.everyoneId ∧
    (buildCategoriesLoop okPlatform g map cats).1.nextId = g.nextId + catsSize cats := by
  induction cats with
  | nil => intro g map _; simp [buildCategoriesLoop, expCatsAux, catsSize]
  | cons cat rest ih =>
    intro g map hok
    have hce : okPlatform.chanErr
        { name := sanitizeName (jsOrStr cat.name "Category"), type := 4 } = none := rfl
    simp only [buildCategoriesLoop, hce]
    have hg1c : ((createChannelRaw g
        { name := sanitizeName (jsOrStr cat.name "Category"), type := 4 }).1).channels.map eraseOws =
        g.channels.map eraseOws ++ [expCatChan g.channels.length g.nextId cat] := by
      show ((g.channels ++ [_]).map eraseOws) = _
      rw [List.map_append]
      rfl
    have hg1len : ((createChannelRaw g
        { name := sanitizeName (jsOrStr cat.name "Category"), type := 4 }).1).channels.length =
        g.channels.length + 1 := by
      show (g.channels ++ [_]).length = _
      simp
    have hg1n : ((createChannelRaw g
        { name := sanitizeName (jsOrStr cat.name "Category"), type := 4 }).1).nextId =
        g.nextId + 1 := rfl
    have hchans := buildChannelsLoop_ok cat.channels
      (createChannelRaw g { name := sanitizeName (jsOrStr cat.name "Category"), type := 4 }).1
      map
      (createChannelRaw g { name := sanitizeName (jsOrStr cat.name "Category"), type := 4 }).2
      (hok cat (List.mem_cons_self _ _))
    simp only [hchans.1]
    have hg3len : (buildChannelsLoop okPlatform
        (createChannelRaw g { name := sanitizeName (jsOrStr cat.name "Category"), type := 4 }).1
        map
        (createChannelRaw g { name := sanitizeName (jsOrStr cat.name "Category"), type := 4 }).2
        cat.channels).1.channels.length = g.channels.length + 1 + cat.channels.length := by
      have hl := congrArg List.length hchans.2.1
      simp only [List.length_map, List.length_append, expChansAux_length] at hl
      rw [hl, hg1len]
    have hrest := ih (buildChannelsLoop okPlatform
        (createChannelRaw g { name := sanitizeName (jsOrStr cat.name "Category"), type := 4 }).1
        map
        (createChannelRaw g { name := sanitizeName (jsOrStr cat.name "Category"), type := 4 }).2
        cat.channels).1 map
      (fun cat' h' => hok cat' (List.mem_cons_of_mem _ h'))
    refine ⟨hrest.1, ?_, ?_, ?_, ?_⟩
    · rw [hrest.2.1, hchans.2.1, hg1c, hg3len, hchans.2.2.2.2, hg1len, hg1n,
        List.append_assoc, List.append_assoc]
      rfl
    · rw [hrest.2.2.1, hchans.2.2.1]
      rfl
    · rw [hrest.2.2.2.1, hchans.2.2.2.1]
      rfl
    · rw [hrest.2.2.2.2, hchans.2.2.2.2, hg1n]
      simp only [catsSize]
      omega

/-- Role-phase guild characterization when no RoleSpec is skipped: the guild
gains exactly the expected live roles in order. -/
theorem ensureRolesAux_guild (tpls : List RoleSpec) :
    ∀ (g : Guild) (map : List (String × String)),
    (∀ r ∈ tpls, skipRole g.everyoneId r = false ∧ (normalizePermValue r.permissions).isSome) →
    (ensureRolesAux g map tpls).1.everyoneId = g.everyoneId ∧
    (ensureRolesAux g map tpls).1.channels = g.channels ∧
    (ensureRolesAux g map tpls).1.roles =
      g.roles ++ expRolesAux g.roles.length g.nextId tpls ∧
    (ensureRolesAux g map tpls).1.nextId = g.nextId + tpls.length := by
  induction tpls with
  | nil => intro g map _; simp [ensureRolesAux, expRolesAux]
  | cons r rest ih =>
    intro g map h
    have hh := h r (List.mem_cons_self _ _)
    obtain ⟨pval, hp⟩ := Option.isSome_iff_exists.mp hh.2
    simp only [ensureRolesAux, hh.1, Bool.false_eq_true, if_false, hp]
    have hg2e : ((createRoleRaw g r.name r.color r.hoist r.mentionable pval).1).everyoneId
        = g.everyoneId := rfl
    have hrec := ih (createRoleRaw g r.name r.color r.hoist r.mentionable pval).1
      (jsMapSet map r.refId (createRoleRaw g r.name r.color r.hoist r.mentionable pval).2)
      (fun r' h' => ⟨by rw [hg2e]; exact (h r' (List.mem_cons_of_mem _ h')).1,
                     (h r' (List.mem_cons_of_mem _ h')).2⟩)
    have hroles2 : ((createRoleRaw g r.name r.color r.hoist r.mentionable pval).1).roles
        = g.roles ++ [mkLiveRole g.roles.length g.nextId r] := by
      simp [createRoleRaw, mkLiveRole, hp]
    have hlen2 : ((createRoleRaw g r.name r.color r.hoist r.mentionable pval).1).roles.length
        = g.roles.length + 1 := by
      rw [hroles2]; simp
    have hn2 : ((createRoleRaw g r.name r.color r.hoist r.mentionable pval).1).nextId
        = g.nextId + 1 := rfl
    refine ⟨hrec.1.trans hg2e, hrec.2.1, ?_, ?_⟩
    · rw [hrec.2.2.1, hroles2, hn2]
      simp only [List.length_append, List.length_singleton]
      rw [List.append_assoc]
      rfl
    · rw [hrec.2.2.2, hn2]
      simp only [List.length_cons]
      omega

/-- Full-build characterization on the empty target with a failure-free
platform: no error; the final guild holds the base role followed by the
expected created roles, and its channels have exactly the expected shapes. -/
theorem buildServer_ok (t : Template)
    (hr : ∀ r ∈ t.roles,
      skipRole emptyTarget.everyoneId r = false ∧ (normalizePermValue r.permissions).isSome)
    (hows : ∀ cat ∈ t.categories, ∀ ch ∈ cat.channels, owsOk ch = true) :
    (buildServerFromTemplate okPlatform emptyTarget t).err = none ∧
    (buildServerFromTemplate okPlatform emptyTarget t).guild.everyoneId = "everyone-base" ∧
    (buildServerFromTemplate okPlatform emptyTarget t).guild.roles =
      emptyTarget.roles ++ expRolesAux 1 0 t.roles ∧
    (buildServerFromTemplate okPlatform emptyTarget t).guild.channels.map eraseOws =
      expCatsAux 0 t.roles.length t.categories := by
  have hrun := ensureRolesAux_run t.roles emptyTarget
    (jsMapSet [] "everyone" emptyTarget.everyoneId) (fun r h hs => (hr r h).2)
  have hg := ensureRolesAux_guild t.roles emptyTarget
    (jsMapSet [] "everyone" emptyTarget.everyoneId) hr
  have herr0 : (ensureRoles emptyTarget t.roles).2.2.2 = none := hrun.1
  have hcats := buildCategoriesLoop_ok t.categories (ensureRoles emptyTarget t.roles).1
    (ensureRoles emptyTarget t.roles).2.2.1 hows
  have hchan0 : (ensureRoles emptyTarget t.roles).1.channels = ([] : List LiveChannel) := hg.2.1
  have hnext0 : (ensureRoles emptyTarget t.roles).1.nextId = t.roles.length := by
    have h2 : (ensureRoles emptyTarget t.roles).1.nextId =
        emptyTarget.nextId + t.roles.length := hg.2.2.2
    simpa [emptyTarget] using h2
  simp only [buildServerFromTemplate, herr0]
  refine ⟨hcats.1, ?_, ?_, ?_⟩
  · exact hcats.2.2.2.1.trans hg.1
  · exact hcats.2.2.1.trans hg.2.2.1
  · rw [hcats.2.1, hchan0, hnext0]
    rfl

/-- Inserting below every element keeps the element in front. -/
theorem insertByKey_head {α : Type} (key : α → Nat) (x : α) (l : List α)
    (h : ∀ y ∈ l, key x ≤ key y) : insertByKey key x l = x :: l := by
  cases l with
  | nil => rfl
  | cons y ys =>
    simp only [insertByKey, if_pos (h y (List.mem_cons_self _ _))]

/-- Sorting a list whose keys are already strictly increasing is the
identity. -/
theorem sortByKey_of_pairwise {α : Type} (key : α → Nat) (l : List α)
    (h : l.Pairwise (fun a b => key a < key b)) : sortByKey key l = l := by
  induction l with
  | nil => rfl
  | cons x xs ih =>
    rw [List.pairwise_cons] at h
    show insertByKey key x (sortByKey key xs) = x :: xs
    rw [ih h.2]
    exact insertByKey_head key x xs (fun y hy => Nat.le_of_lt (h.1 y hy))

/-- Filtering by a predicate that only reads the channel shape commutes with
taking shapes. -/
theorem filter_map_eraseOws (l : List LiveChannel) (p : LiveChannel → Bool)
    (hp : ∀ c, p (eraseOws c) = p c) :
    (l.filter p).map eraseOws = (l.map eraseOws).filter p := by
  induction l with
  | nil => rfl
  | cons c cs ih =>
    simp only [List.filter_cons, List.map_cons, hp c]
    by_cases h : p c = true
    · simp only [h, if_true, List.map_cons, ih]
    · simp only [h, Bool.false_eq_true, if_false, ih]

/-- The parent link of an expected child channel. -/
theorem channelPayload_parent (parentId : String) (ch : ChannelSpec) :
    (channelPayload parentId ch).parent = some parentId := by
  unfold channelPayload
  by_cases h : isVoiceType ch.type = true <;> simp [h]

/-- The live type of an expected child channel is 0 or 2. -/
theorem channelPayload_type (parentId : String) (ch : ChannelSpec) :
    (channelPayload parentId ch).type = 2 ∨ (channelPayload parentId ch).type = 0 := by
  unfold channelPayload
  by_cases h : isVoiceType ch.type = true <;> simp [h]

/-- Member facts for expected child channels: parent link, type, position
range. -/
theorem expChansAux_mem (chs : List ChannelSpec) :
    ∀ (parentId : String) (pos idn : Nat) (c : LiveChannel),
    c ∈ expChansAux parentId pos idn chs →
    c.parentId = some parentId ∧ (c.type == 4) = false ∧
    pos ≤ c.rawPosition ∧ c.rawPosition < pos + chs.length := by
  induction chs with
  | nil => intro parentId pos idn c hc; simp [expChansAux] at hc
  | cons ch rest ih =>
    intro parentId pos idn c hc
    simp only [expChansAux, List.mem_cons] at hc
    rcases hc with rfl | hc
    · refine ⟨channelPayload_parent parentId ch, ?_, Nat.le_refl _, ?_⟩
      · show ((channelPayload parentId ch).type == 4) = false
        rcases channelPayload_type parentId ch with h | h <;> rw [h] <;> rfl
      · show pos < pos + (ch :: rest).length
        simp only [List.length_cons]
        omega
    · obtain ⟨h1, h2, h3, h4⟩ := ih parentId (pos + 1) (idn + 1) c hc
      refine ⟨h1, h2, Nat.le_of_succ_le h3, ?_⟩
      simp only [List.length_cons]
      omega

/-- Expected child channels have strictly increasing positions. -/
theorem expChansAux_pairwise (chs : List ChannelSpec) :
    ∀ (parentId : String) (pos idn : Nat),
    (expChansAux parentId pos idn chs).Pairwise
      (fun a b => a.rawPosition < b.rawPosition) := by
  induction chs with
  | nil => intro parentId pos idn; exact List.Pairwise.nil
  | cons ch rest ih =>
    intro parentId pos idn
    rw [expChansAux, List.pairwise_cons]
    refine ⟨?_, ih parentId (pos + 1) (idn + 1)⟩
    intro c hc
    have := (expChansAux_mem rest parentId (pos + 1) (idn + 1) c hc).2.2.1
    show pos < c.rawPosition
    omega

/-- Member facts for the full expected channel list: position range. -/
theorem expCatsAux_mem_pos (cats : List CategorySpec) :
    ∀ (pos idn : Nat) (c : LiveChannel),
    c ∈ expCatsAux pos idn cats →
    pos ≤ c.rawPosition ∧ c.rawPosition < pos + catsSize cats := by
  induction cats with
  | nil => intro pos idn c hc; simp [expCatsAux] at hc
  | cons cat rest ih =>
    intro pos idn c hc
    simp only [expCatsAux, List.mem_cons, List.mem_append] at hc
    rcases hc with rfl | hc | hc
    · refine ⟨Nat.le_refl _, ?_⟩
      show pos < pos + catsSize (cat :: rest)
      simp only [catsSize]
      omega
    · have := (expChansAux_mem cat.channels (freshId idn) (pos + 1) (idn + 1) c hc).2.2
      simp only [catsSize]
      omega
    · have := ih (pos + 1 + cat.channels.length) (idn + 1 + cat.channels.length) c hc
      simp only [catsSize]
      omega

/-- The full expected channel list has strictly increasing positions. -/
theorem expCatsAux_pairwise (cats : List CategorySpec) :
    ∀ (pos idn : Nat),
    (expCatsAux pos idn cats).Pairwise (fun a b => a.rawPosition < b.rawPosition) := by
  induction cats with
  | nil => intro pos idn; exact List.Pairwise.nil
  | cons cat rest ih =>
    intro pos idn
    rw [expCatsAux, List.pairwise_cons]
    constructor
    · intro c hc
      show (expCatChan pos idn cat).rawPosition < c.rawPosition
      rcases List.mem_append.mp hc with hc | hc
      · have := (expChansAux_mem cat.channels (freshId idn) (pos + 1) (idn + 1) c hc).2.2.1
        show pos < c.rawPosition
        omega
      · have := (expCatsAux_mem_pos rest (pos + 1 + cat.channels.length)
          (idn + 1 + cat.channels.length) c hc).1
        show pos < c.rawPosition
        omega
    · rw [List.pairwise_append]
      refine ⟨expChansAux_pairwise cat.channels (freshId idn) (pos + 1) (idn + 1),
        ih (pos + 1 + cat.channels.length) (idn + 1 + cat.channels.length), ?_⟩
      intro a ha b hb
      have h1 := (expChansAux_mem cat.channels (freshId idn) (pos + 1) (idn + 1) a ha).2.2.2
      have h2 := (expCatsAux_mem_pos rest (pos + 1 + cat.channels.length)
        (idn + 1 + cat.channels.length) b hb).1
      omega

/-- Member facts for expected category containers: id range and head ids. -/
theorem expCatHeads_mem_id (cats : List CategorySpec) :
    ∀ (pos idn : Nat) (c : LiveChannel),
    c ∈ expCatHeads pos idn cats → ∃ k, idn ≤ k ∧ c.id = freshId k := by
  induction cats with
  | nil => intro pos idn c hc; simp [expCatHeads] at hc
  | cons cat rest ih =>
    intro pos idn c hc
    simp only [expCatHeads, List.mem_cons] at hc
    rcases hc with rfl | hc
    · exact ⟨idn, Nat.le_refl _, rfl⟩
    · obtain ⟨k, hk, hid⟩ := ih (pos + 1 + cat.channels.length)
        (idn + 1 + cat.channels.length) c hc
      exact ⟨k, by omega, hid⟩

/-- Expected category containers have pairwise distinct ids. -/
theorem expCatHeads_pairwise_ne (cats : List CategorySpec) :
    ∀ (pos idn : Nat),
    (expCatHeads pos idn cats).Pairwise (fun a b => a.id ≠ b.id) := by
  induction cats with
  | nil => intro pos idn; exact List.Pairwise.nil
  | cons cat rest ih =>
    intro pos idn
    rw [expCatHeads, List.pairwise_cons]
    refine ⟨?_, ih _ _⟩
    intro c hc
    obtain ⟨k, hk, hid⟩ := expCatHeads_mem_id rest _ _ c hc
    show (expCatChan pos idn cat).id ≠ c.id
    show freshId idn ≠ c.id
    rw [hid]
    intro hcon
    have := freshId_inj hcon
    omega

/-- Member facts for expected child channels across all categories: every
parent link is a fresh id at or above the running counter. -/
theorem expCatChildren_mem_parent (cats : List CategorySpec) :
    ∀ (pos idn : Nat) (c : LiveChannel),
    c ∈ expCatChildren pos idn cats → ∃ k, idn ≤ k ∧ c.parentId = some (freshId k) := by
  induction cats with
  | nil => intro pos idn c hc; simp [expCatChildren] at hc
  | cons cat rest ih =>
    intro pos idn c hc
    simp only [expCatChildren, List.mem_append] at hc
    rcases hc with hc | hc
    · exact ⟨idn, Nat.le_refl _,
        (expChansAux_mem cat.channels (freshId idn) (pos + 1) (idn + 1) c hc).1⟩
    · obtain ⟨k, hk, hp⟩ := ih (pos + 1 + cat.channels.length)
        (idn + 1 + cat.channels.length) c hc
      exact ⟨k, by omega, hp⟩

/-- The type-4 filter of the expected channel list keeps exactly the
category containers, in order. -/
theorem expCatsAux_filter4 (cats : List CategorySpec) :
    ∀ (pos idn : Nat),
    (expCatsAux pos idn cats).filter (fun c => c.type == 4) = expCatHeads pos idn cats := by
  induction cats with
  | nil => intro pos idn; rfl
  | cons cat rest ih =>
    intro pos idn
    rw [expCatsAux, expCatHeads, List.filter_cons, List.filter_append]
    have h4 : ((expCatChan pos idn cat).type == 4) = true := rfl
    rw [h4]
    have hchans : (expChansAux (freshId idn) (pos + 1) (idn + 1) cat.channels).filter
        (fun c => c.type == 4) = [] := by
      rw [List.filter_eq_nil_iff]
      intro c hc
      have := (expChansAux_mem cat.channels (freshId idn) (pos + 1) (idn + 1) c hc).2.1
      simp [this]
    rw [hchans, ih]
    rfl

/-- The truthy-parent filter of the expected channel list keeps exactly the
child channels, in order. -/
theorem expCatsAux_filterParent (cats : List CategorySpec) :
    ∀ (pos idn : Nat),
    (expCatsAux pos idn cats).filter (fun c => truthyOptStr c.parentId) =
      expCatChildren pos idn cats := by
  induction cats with
  | nil => intro pos idn; rfl
  | cons cat rest ih =>
    intro pos idn
    rw [expCatsAux, expCatChildren, List.filter_cons, List.filter_append]
    have hhead : (truthyOptStr (expCatChan pos idn cat).parentId) = false := rfl
    rw [hhead]
    have hchans : (expChansAux (freshId idn) (pos + 1) (idn + 1) cat.channels).filter
        (fun c => truthyOptStr c.parentId) =
        expChansAux (freshId idn) (pos + 1) (idn + 1) cat.channels := by
      rw [List.filter_eq_self]
      intro c hc
      have hp := (expChansAux_mem cat.channels (freshId idn) (pos + 1) (idn + 1) c hc).1
      rw [hp]
      show (!(freshId idn).data.isEmpty) = true
      rw [freshId_data_ne_nil]
      rfl
    rw [hchans, ih]
    simp

/-- Lookup over an append. -/
theorem jsMapGet_append {α : Type} (m m' : List (String × α)) (k : String) :
    jsMapGet (m ++ m') k =
      (match jsMapGet m k with
       | some v => some v
       | none => jsMapGet m' k) := by
  induction m with
  | nil => simp [jsMapGet_nil]
  | cons kv rest ih =>
    rw [List.cons_append, jsMapGet_cons, jsMapGet_cons]
    by_cases h : (kv.1 == k) = true
    · simp [h]
    · simp only [h, Bool.false_eq_true, if_false]
      exact ih

/-- Setting an absent key appends the binding. -/
theorem jsMapSet_of_get_none {α : Type} (m : List (String × α)) (k : String) (v : α)
    (h : jsMapGet m k = none) : jsMapSet m k v = m ++ [(k, v)] := by
  induction m with
  | nil => rfl
  | cons kv rest ih =>
    rw [jsMapGet_cons] at h
    by_cases hkv : (kv.1 == k) = true
    · rw [if_pos hkv] at h
      exact absurd h (by simp)
    · rw [if_neg hkv] at h
      show (if (kv.1 == k) = true then _ else kv :: jsMapSet rest k v) = _
      rw [if_neg hkv, ih h]
      rfl

/-- Seeding the category map: with fresh, pairwise-distinct container ids the
fold appends one empty category entry per container, in order. -/
theorem foldSet_new (cats : List LiveChannel) :
    ∀ (m : List (String × CategorySpec)),
    (∀ c ∈ cats, jsMapGet m c.id = none) →
    cats.Pairwise (fun a b => a.id ≠ b.id) →
    cats.foldl (fun m cat => jsMapSet m cat.id { name := cat.name, channels := [] }) m =
      m ++ cats.map
        (fun cat => ((cat.id : String), ({ name := cat.name, channels := [] } : CategorySpec))) := by
  induction cats with
  | nil => intro m _ _; simp
  | cons c rest ih =>
    intro m hnone hnd
    rw [List.pairwise_cons] at hnd
    have hnew : ∀ c' ∈ rest,
        jsMapGet (m ++ [(c.id, ({ name := c.name, channels := [] } : CategorySpec))]) c'.id
          = none := by
      intro c' hc'
      rw [jsMapGet_append, hnone c' (List.mem_cons_of_mem _ hc')]
      show jsMapGet [(c.id, _)] c'.id = none
      rw [jsMapGet_cons]
      have hne : (c.id == c'.id) = false := beq_eq_false_iff_ne.mpr (hnd.1 c' hc')
      rw [hne]
      rfl
    rw [List.foldl_cons, jsMapSet_of_get_none m c.id _ (hnone c (List.mem_cons_self _ _)),
      ih _ hnew hnd.2]
    simp

/-- Setting an existing key preserves the key list. -/
theorem jsMapSet_keys_of_get_some {α : Type} (m : List (String × α)) (k : String)
    (v v' : α) (h : jsMapGet m k = some v) :
    (jsMapSet m k v').map (fun kv => kv.1) = m.map (fun kv => kv.1) := by
  induction m with
  | nil => simp [jsMapGet_nil] at h
  | cons kv rest ih =>
    rw [jsMapGet_cons] at h
    by_cases hkv : (kv.1 == k) = true
    · show ((if (kv.1 == k) = true then (k, v') :: rest else _).map _) = _
      rw [if_pos hkv]
      simp only [List.map_cons]
      rw [beq_iff_eq.mp hkv]
    · rw [if_neg hkv] at h
      show ((if (kv.1 == k) = true then _ else kv :: jsMapSet rest k v').map _) = _
      rw [if_neg hkv]
      simp only [List.map_cons, ih h]

/-- Equality of Option-of-String equality tests. -/
theorem some_beq_some (a b : String) : ((some a == some b) = (a == b)) := rfl

/-- A `none` lookup means no binding carries the key. -/
theorem jsMapGet_none_mem {α : Type} (m : List (String × α)) (k : String)
    (h : jsMapGet m k = none) : ∀ kv ∈ m, (kv.1 == k) = false := by
  induction m with
  | nil => intro kv hkv; simp at hkv
  | cons kv0 rest ih =>
    intro kv hkv
    rw [jsMapGet_cons] at h
    by_cases h0 : (kv0.1 == k) = true
    · rw [if_pos h0] at h
      exact absurd h (by simp)
    · rw [if_neg h0] at h
      rcases List.mem_cons.mp hkv with rfl | hkv
      · exact Bool.eq_false_iff.mpr h0
      · exact ih h kv hkv

/-- Updating the parent entry of the (unique) matching category commutes with
the final per-entry channel-list description. -/
theorem map_after_set (m : List (String × CategorySpec)) :
    ∀ (pid : String) (parent : CategorySpec) (c : LiveChannel) (rest : List LiveChannel),
    (m.map (fun kv => kv.1)).Nodup →
    jsMapGet m pid = some parent →
    c.parentId = some pid →
    (jsMapSet m pid { parent with channels := parent.channels ++ [liveChanToSpec c] }).map
      (fun kv => (kv.1, ({ name := kv.2.name, channels := kv.2.channels ++
        ((rest.filter (fun ch => ch.parentId == some kv.1)).map liveChanToSpec) } : CategorySpec))) =
    m.map (fun kv => (kv.1, ({ name := kv.2.name, channels := kv.2.channels ++
        (((c :: rest).filter (fun ch => ch.parentId == some kv.1)).map liveChanToSpec) } : CategorySpec))) := by
  induction m with
  | nil => intro pid parent c rest _ hget _; simp [jsMapGet_nil] at hget
  | cons kv m' ih =>
    intro pid parent c rest hnd hget hcp
    simp only [List.map_cons, List.nodup_cons] at hnd
    rw [jsMapGet_cons] at hget
    by_cases hkv : (kv.1 == pid) = true
    · have hk1 : kv.1 = pid := beq_iff_eq.mp hkv
      rw [if_pos hkv] at hget
      have hpar : kv.2 = parent := Option.some.inj hget
      simp only [jsMapSet]
      rw [if_pos hkv]
      simp only [List.map_cons]
      refine congrArg₂ List.cons ?_ ?_
      · show (pid, _) = (kv.1, _)
        rw [hk1]
        refine congrArg _ ?_
        show ({ name := parent.name, channels := (parent.channels ++ [liveChanToSpec c]) ++ _ }
            : CategorySpec) = _
        rw [List.filter_cons]
        have hc : (c.parentId == some pid) = true := by
          rw [hcp, some_beq_some]
          exact beq_self_eq_true pid
        rw [hc]
        simp only [if_true, List.map_cons, ← hpar, List.append_assoc]
        rfl
      · refine List.map_congr_left ?_
        intro kv' hkv'
        have hne : kv'.1 ≠ pid := by
          rw [← hk1]
          intro hcon
          exact hnd.1 (by
            have : kv.1 ∈ m'.map (fun kv => kv.1) := by
              rw [← hcon] at hk1 ⊢
              exact List.mem_map_of_mem _ hkv'
            exact this)
        refine congrArg _ ?_
        show ({ name := kv'.2.name, channels := _ } : CategorySpec) = _
        rw [List.filter_cons]
        have hc : (c.parentId == some kv'.1) = false := by
          rw [hcp, some_beq_some]
          exact beq_eq_false_iff_ne.mpr (fun hh => hne hh.symm)
        rw [hc]
        simp
    · rw [if_neg hkv] at hget
      simp only [jsMapSet]
      rw [if_neg hkv]
      simp only [List.map_cons]
      refine congrArg₂ List.cons ?_ ?_
      · refine congrArg _ ?_
        show ({ name := kv.2.name, channels := _ } : CategorySpec) = _
        rw [List.filter_cons]
        have hc : (c.parentId == some kv.1) = false := by
          rw [hcp, some_beq_some]
          refine beq_eq_false_iff_ne.mpr ?_
          intro hh
          exact hkv (by rw [hh]; exact beq_self_eq_true _)
        rw [hc]
        simp
      · exact ih pid parent c rest hnd.2 hget hcp

/-- The channel-assignment fold appends to each category entry exactly the
converted channels whose parent link is that entry's key, in order. -/
theorem childFold_eq (children : List LiveChannel) :
    ∀ (m : List (String × CategorySpec)),
    (m.map (fun kv => kv.1)).Nodup →
    children.foldl childStep m =
      m.map (fun kv => (kv.1, ({ name := kv.2.name, channels := kv.2.channels ++
        ((children.filter (fun ch => ch.parentId == some kv.1)).map liveChanToSpec) } : CategorySpec))) := by
  induction children with
  | nil =>
    intro m _
    simp only [List.foldl_nil, List.filter_nil, List.map_nil, List.append_nil]
    have h : ∀ kv ∈ m, ((kv.1, ({ name := kv.2.name, channels := kv.2.channels } : CategorySpec))
        : String × CategorySpec) = kv := fun kv _ => rfl
    rw [List.map_congr_left h, List.map_id']
  | cons c rest ih =>
    intro m hnd
    rw [List.foldl_cons]
    cases hcp : c.parentId with
    | none =>
      have hstep : childStep m c = m := by simp only [childStep, hcp]
      rw [hstep, ih m hnd]
      refine List.map_congr_left ?_
      intro kv _
      refine congrArg _ ?_
      show ({ name := kv.2.name, channels := _ } : CategorySpec) = _
      rw [List.filter_cons]
      have hc : (c.parentId == some kv.1) = false := by rw [hcp]; rfl
      rw [hc]
      simp
    | some pid =>
      cases hget : jsMapGet m pid with
      | none =>
        have hstep : childStep m c = m := by simp only [childStep, hcp, hget]
        rw [hstep, ih m hnd]
        refine List.map_congr_left ?_
        intro kv hkv
        refine congrArg _ ?_
        show ({ name := kv.2.name, channels := _ } : CategorySpec) = _
        rw [List.filter_cons]
        have hk : (kv.1 == pid) = false := jsMapGet_none_mem m pid hget kv hkv
        have hc : (c.parentId == some kv.1) = false := by
          rw [hcp, some_beq_some]
          refine beq_eq_false_iff_ne.mpr ?_
          intro hh
          exact (Bool.eq_false_iff.mp hk) (by rw [hh]; exact beq_self_eq_true _)
        rw [hc]
        simp
      | some parent =>
        have hstep : childStep m c =
            jsMapSet m pid { parent with channels := parent.channels ++ [liveChanToSpec c] } := by
          simp only [childStep, hcp, hget]
        rw [hstep]
        have hkeys := jsMapSet_keys_of_get_some m pid parent
          { parent with channels := parent.channels ++ [liveChanToSpec c] } hget
        have hnd2 : ((jsMapSet m pid
            { parent with channels := parent.channels ++ [liveChanToSpec c] }).map
            (fun kv => kv.1)).Nodup := by
          rw [hkeys]; exact hnd
        rw [ih _ hnd2]
        exact map_after_set m pid parent c rest hnd hget hcp

/-- A canonical permission string resolves to a value whose decimal
serialization is the string itself. -/
theorem canonicalPermStr_spec (s : String) (h : canonicalPermStr s = true) :
    ∃ n, normalizePermValue s = some n ∧ toString n = s := by
  unfold canonicalPermStr at h
  cases hn : normalizePermValue s with
  | none =>
    simp only [hn] at h
    exact absurd h (by simp)
  | some n =>
    simp only [hn] at h
    exact ⟨n, rfl, beq_iff_eq.mp h⟩

/-- Member facts for expected created roles: position range. -/
theorem expRolesAux_mem_pos (rs : List RoleSpec) :
    ∀ (pos idn : Nat) (lr : LiveRole), lr ∈ expRolesAux pos idn rs →
    pos ≤ lr.rawPosition ∧ lr.rawPosition < pos + rs.length := by
  induction rs with
  | nil => intro pos idn lr h; simp [expRolesAux] at h
  | cons r rest ih =>
    intro pos idn lr h
    simp only [expRolesAux, List.mem_cons] at h
    rcases h with rfl | h
    · refine ⟨Nat.le_refl _, ?_⟩
      show pos < pos + (r :: rest).length
      simp only [List.length_cons]
      omega
    · obtain ⟨h1, h2⟩ := ih (pos + 1) (idn + 1) lr h
      simp only [List.length_cons]
      omega

/-- Expected created roles have strictly increasing positions. -/
theorem expRolesAux_pairwise (rs : List RoleSpec) :
    ∀ (pos idn : Nat),
    (expRolesAux pos idn rs).Pairwise (fun a b => a.rawPosition < b.rawPosition) := by
  induction rs with
  | nil => intro pos idn; exact List.Pairwise.nil
  | cons r rest ih =>
    intro pos idn
    rw [expRolesAux, List.pairwise_cons]
    refine ⟨?_, ih (pos + 1) (idn + 1)⟩
    intro b hb
    have := (expRolesAux_mem_pos rest (pos + 1) (idn + 1) b hb).1
    show pos < b.rawPosition
    omega

/-- Re-serializing the expected created roles reproduces the source RoleSpec
projections when every permission string is a canonical decimal. -/
theorem expRolesAux_proj (rs : List RoleSpec) :
    ∀ (pos idn : Nat), (∀ r ∈ rs, canonicalPermStr r.permissions = true) →
    (expRolesAux pos idn rs).map
      (fun role => ((role.name : String), (role.color : Nat), toString role.permissions)) =
    rs.map roleProj := by
  induction rs with
  | nil => intro pos idn _; rfl
  | cons r rest ih =>
    intro pos idn h
    simp only [expRolesAux, List.map_cons]
    refine congrArg₂ List.cons ?_
      (ih (pos + 1) (idn + 1) (fun x hx => h x (List.mem_cons_of_mem _ hx)))
    obtain ⟨n, hn, hs⟩ := canonicalPermStr_spec r.permissions (h r (List.mem_cons_self _ _))
    show ((r.name : String), (r.color : Nat),
      toString ((normalizePermValue r.permissions).getD 0)) = (r.name, r.color, r.permissions)
    rw [hn]
    show ((r.name : String), (r.color : Nat), toString n) = (r.name, r.color, r.permissions)
    rw [hs]

/-- Insertion sort step commutes with a key-preserving map. -/
theorem insertByKey_map {α β : Type} (f : α → β) (key : α → Nat) (key2 : β → Nat)
    (hf : ∀ a, key2 (f a) = key a) (x : α) (l : List α) :
    (insertByKey key x l).map f = insertByKey key2 (f x) (l.map f) := by
  induction l with
  | nil => rfl
  | cons y ys ih =>
    simp only [insertByKey, List.map_cons]
    by_cases h : key x ≤ key y
    · rw [if_pos h, if_pos (by rw [hf, hf]; exact h)]
      simp only [List.map_cons]
    · rw [if_neg h, if_neg (by rw [hf, hf]; exact h)]
      simp only [List.map_cons, ih]

/-- Sorting commutes with a key-preserving map. -/
theorem sortByKey_map {α β : Type} (f : α → β) (key : α → Nat) (key2 : β → Nat)
    (hf : ∀ a, key2 (f a) = key a) (l : List α) :
    (sortByKey key l).map f = sortByKey key2 (l.map f) := by
  induction l with
  | nil => rfl
  | cons x xs ih =>
    show (insertByKey key x (sortByKey key xs)).map f =
      insertByKey key2 (f x) (sortByKey key2 (xs.map f))
    rw [insertByKey_map f key key2 hf, ih]

/-- Member facts for expected category containers: position range. -/
theorem expCatHeads_mem_pos (cats : List CategorySpec) :
    ∀ (pos idn : Nat) (c : LiveChannel), c ∈ expCatHeads pos idn cats →
    pos ≤ c.rawPosition ∧ c.rawPosition < pos + catsSize cats := by
  induction cats with
  | nil => intro pos idn c hc; simp [expCatHeads] at hc
  | cons cat rest ih =>
    intro pos idn c hc
    simp only [expCatHeads, List.mem_cons] at hc
    rcases hc with rfl | hc
    · refine ⟨Nat.le_refl _, ?_⟩
      show pos < pos + catsSize (cat :: rest)
      simp only [catsSize]
      omega
    · have := ih (pos + 1 + cat.channels.length) (idn + 1 + cat.channels.length) c hc
      simp only [catsSize]
      omega

/-- Expected category containers have strictly increasing positions. -/
theorem expCatHeads_pairwise_pos (cats : List CategorySpec) :
    ∀ (pos idn : Nat),
    (expCatHeads pos idn cats).Pairwise (fun a b => a.rawPosition < b.rawPosition) := by
  induction cats with
  | nil => intro pos idn; exact List.Pairwise.nil
  | cons cat rest ih =>
    intro pos idn
    rw [expCatHeads, List.pairwise_cons]
    refine ⟨?_, ih _ _⟩
    intro b hb
    have := (expCatHeads_mem_pos rest (pos + 1 + cat.channels.length)
      (idn + 1 + cat.channels.length) b hb).1
    show pos < b.rawPosition
    omega

/-- Member facts for expected child channels across categories: position
range. -/
theorem expCatChildren_mem_pos (cats : List CategorySpec) :
    ∀ (pos idn : Nat) (c : LiveChannel), c ∈ expCatChildren pos idn cats →
    pos < c.rawPosition ∧ c.rawPosition < pos + catsSize cats := by
  induction cats with
  | nil => intro pos idn c hc; simp [expCatChildren] at hc
  | cons cat rest ih =>
    intro pos idn c hc
    simp only [expCatChildren, List.mem_append] at hc
    rcases hc with hc | hc
    · have := (expChansAux_mem cat.channels (freshId idn) (pos + 1) (idn + 1) c hc).2.2
      simp only [catsSize]
      omega
    · have := ih (pos + 1 + cat.channels.length) (idn + 1 + cat.channels.length) c hc
      simp only [catsSize]
      omega

/-- Expected child channels across categories have strictly increasing
positions. -/
theorem expCatChildren_pairwise_pos (cats : List CategorySpec) :
    ∀ (pos idn : Nat),
    (expCatChildren pos idn cats).Pairwise (fun a b => a.rawPosition < b.rawPosition) := by
  induction cats with
  | nil => intro pos idn; exact List.Pairwise.nil
  | cons cat rest ih =>
    intro pos idn
    rw [expCatChildren, List.pairwise_append]
    refine ⟨expChansAux_pairwise cat.channels (freshId idn) (pos + 1) (idn + 1), ih _ _, ?_⟩
    intro a ha b hb
    have h1 := (expChansAux_mem cat.channels (freshId idn) (pos + 1) (idn + 1) a ha).2.2.2
    have h2 := (expCatChildren_mem_pos rest (pos + 1 + cat.channels.length)
      (idn + 1 + cat.channels.length) b hb).1
    show a.rawPosition < b.rawPosition
    omega

/-- Mapping a shape-only function over a list equals mapping the matching
function over the list of shapes. -/
theorem map_eraseOws_congr {β : Type} (L : List LiveChannel) (E : List LiveChannel)
    (h : L.map eraseOws = E) (f : LiveChannel → β) (g : LiveChannel → β)
    (hfg : ∀ c, f c = g (eraseOws c)) : L.map f = E.map g := by
  subst h
  rw [List.map_map]
  exact List.map_congr_left (fun c _ => hfg c)

/-- Name-and-type projection of the expected child channels of one category
reproduces the source ChannelSpec projections under the normalization
hypotheses. -/
theorem expChansAux_proj (chs : List ChannelSpec) :
    ∀ (parentId : String) (pos idn : Nat),
    (∀ ch ∈ chs, sanitizeName (jsOrStr ch.name "channel") = ch.name ∧
      (ch.type = ChType.str "text" ∨ ch.type = ChType.str "voice")) →
    (expChansAux parentId pos idn chs).map
      (fun lc => ((lc.name : String), ChType.str (if lc.type == 2 then "voice" else "text"))) =
    chs.map (fun ch => (ch.name, ch.type)) := by
  induction chs with
  | nil => intro parentId pos idn _; rfl
  | cons ch rest ih =>
    intro parentId pos idn h
    simp only [expChansAux, List.map_cons]
    refine congrArg₂ List.cons ?_
      (ih parentId (pos + 1) (idn + 1) (fun x hx => h x (List.mem_cons_of_mem _ hx)))
    obtain ⟨hname, htype⟩ := h ch (List.mem_cons_self _ _)
    show (((channelPayload parentId ch).name : String),
      ChType.str (if ((channelPayload parentId ch).type == 2) = true then "voice" else "text")) =
      ((ch.name : String), ch.type)
    rcases htype with ht | ht
    · have hv : isVoiceType ch.type = false := by rw [ht]; decide
      simp only [channelPayload, hv]
      show (sanitizeName (jsOrStr ch.name "channel"), ChType.str "text") = (ch.name, ch.type)
      rw [hname, ht]
    · have hv : isVoiceType ch.type = true := by rw [ht]; decide
      simp only [channelPayload, hv]
      show (sanitizeName (jsOrStr ch.name "channel"), ChType.str "voice") = (ch.name, ch.type)
      rw [hname, ht]

/-- Grouping the expected child channels under the expected category
containers by parent link reproduces the source category projections under
the normalization hypotheses. -/
theorem projHeads_eq (cats : List CategorySpec) :
    ∀ (pos idn : Nat),
    (∀ cat ∈ cats, sanitizeName (jsOrStr cat.name "Category") = cat.name) →
    (∀ cat ∈ cats, ∀ ch ∈ cat.channels,
      sanitizeName (jsOrStr ch.name "channel") = ch.name ∧
      (ch.type = ChType.str "text" ∨ ch.type = ChType.str "voice")) →
    (expCatHeads pos idn cats).map (fun hc => ((hc.name : String),
      ((expCatChildren pos idn cats).filter (fun ch => ch.parentId == some hc.id)).map
        (fun lc => ((lc.name : String),
          ChType.str (if lc.type == 2 then "voice" else "text"))))) =
    cats.map projCat := by
  induction cats with
  | nil => intro pos idn _ _; rfl
  | cons cat rest ih =>
    intro pos idn hname hch
    simp only [expCatHeads, expCatChildren, List.map_cons]
    refine congrArg₂ List.cons ?_ ?_
    · have hid : (expCatChan pos idn cat).id = freshId idn := rfl
      have hnm : (expCatChan pos idn cat).name = cat.name :=
        hname cat (List.mem_cons_self _ _)
      rw [hid, hnm, List.filter_append]
      have hfb : (expChansAux (freshId idn) (pos + 1) (idn + 1) cat.channels).filter
          (fun ch => ch.parentId == some (freshId idn)) =
          expChansAux (freshId idn) (pos + 1) (idn + 1) cat.channels := by
        rw [List.filter_eq_self]
        intro c hc
        rw [(expChansAux_mem cat.channels (freshId idn) (pos + 1) (idn + 1) c hc).1]
        exact beq_self_eq_true _
      have hfr : (expCatChildren (pos + 1 + cat.channels.length)
          (idn + 1 + cat.channels.length) rest).filter
          (fun ch => ch.parentId == some (freshId idn)) = [] := by
        rw [List.filter_eq_nil_iff]
        intro c hc hcon
        obtain ⟨k, hk, hp⟩ := expCatChildren_mem_parent rest
          (pos + 1 + cat.channels.length) (idn + 1 + cat.channels.length) c hc
        rw [hp] at hcon
        have hke : freshId k = freshId idn := Option.some.inj (beq_iff_eq.mp hcon)
        have := freshId_inj hke
        omega
      rw [hfb, hfr, List.append_nil,
        expChansAux_proj cat.channels (freshId idn) (pos + 1) (idn + 1)
          (hch cat (List.mem_cons_self _ _))]
      rfl
    · refine (List.map_congr_left ?_).trans
        (ih (pos + 1 + cat.channels.length) (idn + 1 + cat.channels.length)
          (fun x hx => hname x (List.mem_cons_of_mem _ hx))
          (fun x hx => hch x (List.mem_cons_of_mem _ hx)))
      intro hc hhc
      obtain ⟨k, hk, hid⟩ := expCatHeads_mem_id rest (pos + 1 + cat.channels.length)
        (idn + 1 + cat.channels.length) hc hhc
      have hfb0 : (expChansAux (freshId idn) (pos + 1) (idn + 1) cat.channels).filter
          (fun ch => ch.parentId == some hc.id) = [] := by
        rw [List.filter_eq_nil_iff]
        intro c hcm hcon
        rw [(expChansAux_mem cat.channels (freshId idn) (pos + 1) (idn + 1) c hcm).1] at hcon
        have h2 : freshId idn = hc.id := Option.some.inj (beq_iff_eq.mp hcon)
        rw [hid] at h2
        have := freshId_inj h2
        omega
      simp only [List.filter_append, hfb0, List.nil_append]

/-- Category-extraction core: if the sorted type-4 channels have the expected
container shapes and the sorted parent-linked channels have the expected
child shapes, the extracted categories project to the source categories. -/
theorem map_proj_of_erase (cats : List CategorySpec) (idn : Nat)
    (CATS CHN : List LiveChannel)
    (hC : CATS.map eraseOws = expCatHeads 0 idn cats)
    (hK : CHN.map eraseOws = expCatChildren 0 idn cats)
    (hname : ∀ cat ∈ cats, sanitizeName (jsOrStr cat.name "Category") = cat.name)
    (hch : ∀ cat ∈ cats, ∀ ch ∈ cat.channels,
      sanitizeName (jsOrStr ch.name "channel") = ch.name ∧
      (ch.type = ChType.str "text" ∨ ch.type = ChType.str "voice")) :
    ((CHN.foldl childStep
      (CATS.foldl (fun m cat => jsMapSet m cat.id { name := cat.name, channels := [] })
        [])).map (fun kv => kv.2)).map projCat = cats.map projCat := by
  have hids : CATS.Pairwise (fun a b => a.id ≠ b.id) := by
    have h1 : (CATS.map eraseOws).Pairwise (fun a b => a.id ≠ b.id) := by
      rw [hC]
      exact expCatHeads_pairwise_ne cats 0 idn
    exact List.Pairwise.of_map eraseOws (fun a b hab => hab) h1
  have hM0 : CATS.foldl (fun m cat => jsMapSet m cat.id { name := cat.name, channels := [] })
      [] = CATS.map
      (fun cat => ((cat.id : String), ({ name := cat.name, channels := [] } : CategorySpec))) := by
    have h2 := foldSet_new CATS [] (fun c _ => jsMapGet_nil c.id) hids
    simpa using h2
  have hkeys : ((CATS.map (fun cat =>
      ((cat.id : String), ({ name := cat.name, channels := [] } : CategorySpec)))).map
      (fun kv => kv.1)).Nodup := by
    rw [List.map_map]
    exact List.pairwise_map.mpr hids
  rw [hM0, childFold_eq CHN _ hkeys]
  simp only [List.map_map]
  show CATS.map (fun cat => ((cat.name : String),
    ((CHN.filter (fun ch => ch.parentId == some cat.id)).map liveChanToSpec).map
      (fun cs => ((cs.name : String), cs.type)))) = cats.map projCat
  refine (map_eraseOws_congr CATS (expCatHeads 0 idn cats) hC _ _ ?_).trans
    (projHeads_eq cats 0 idn hname hch)
  intro c
  show ((c.name : String),
      ((CHN.filter (fun ch => ch.parentId == some c.id)).map liveChanToSpec).map
        (fun cs => ((cs.name : String), cs.type))) =
    ((c.name : String),
      ((expCatChildren 0 idn cats).filter (fun ch => ch.parentId == some c.id)).map
        (fun lc => ((lc.name : String), ChType.str (if lc.type == 2 then "voice" else "text"))))
  refine congrArg _ ?_
  rw [List.map_map]
  have hfe : (CHN.filter (fun ch => ch.parentId == some c.id)).map eraseOws =
      (expCatChildren 0 idn cats).filter (fun ch => ch.parentId == some c.id) := by
    rw [filter_map_eraseOws CHN (fun ch => ch.parentId == some c.id) (fun x => rfl), hK]
  exact map_eraseOws_congr _ _ hfe
    ((fun (cs : ChannelSpec) => ((cs.name : String), cs.type)) ∘ liveChanToSpec)
    (fun lc => ((lc.name : String), ChType.str (if lc.type == 2 then "voice" else "text")))
    (fun x => rfl)

/-- Category extraction from a guild whose channel shapes are exactly the
expected build output projects to the source categories. -/
theorem fromGuild_cats_proj (g : Guild) (cats : List CategorySpec) (idn : Nat)
    (hg : g.channels.map eraseOws = expCatsAux 0 idn cats)
    (hname : ∀ cat ∈ cats, sanitizeName (jsOrStr cat.name "Category") = cat.name)
    (hch : ∀ cat ∈ cats, ∀ ch ∈ cat.channels,
      sanitizeName (jsOrStr ch.name "channel") = ch.name ∧
      (ch.type = ChType.str "text" ∨ ch.type = ChType.str "voice")) :
    (fromGuild g).categories.map projCat = cats.map projCat := by
  have hC : (sortByKey (fun c => c.rawPosition)
      (g.channels.filter (fun ch => ch.type == 4))).map eraseOws =
      expCatHeads 0 idn cats := by
    rw [sortByKey_map eraseOws (fun c => c.rawPosition) (fun c => c.rawPosition) (fun a => rfl),
      filter_map_eraseOws g.channels (fun ch => ch.type == 4) (fun c => rfl), hg,
      expCatsAux_filter4,
      sortByKey_of_pairwise _ _ (expCatHeads_pairwise_pos cats 0 idn)]
  have hK : (sortByKey (fun c => c.rawPosition)
      (g.channels.filter (fun ch => truthyOptStr ch.parentId))).map eraseOws =
      expCatChildren 0 idn cats := by
    rw [sortByKey_map eraseOws (fun c => c.rawPosition) (fun c => c.rawPosition) (fun a => rfl),
      filter_map_eraseOws g.channels (fun ch => truthyOptStr ch.parentId) (fun c => rfl), hg,
      expCatsAux_filterParent,
      sortByKey_of_pairwise _ _ (expCatChildren_pairwise_pos cats 0 idn)]
  simp only [fromGuild]
  exact map_proj_of_erase cats idn _ _ hC hK hname hch

/-- Role extraction from a guild whose role collection is exactly the
expected build output projects to the base role followed by the source
roles. -/
theorem fromGuild_roles_proj (g : Guild) (rs : List RoleSpec)
    (hg : g.roles = emptyTarget.roles ++ expRolesAux 1 0 rs)
    (hcanon : ∀ r ∈ rs, canonicalPermStr r.permissions = true) :
    (fromGuild g).roles.map roleProj = ("@everyone", 0, "0") :: rs.map roleProj := by
  have hsort : sortByKey (fun r => r.rawPosition) g.roles =
      emptyTarget.roles ++ expRolesAux 1 0 rs := by
    rw [hg]
    apply sortByKey_of_pairwise
    rw [List.pairwise_append]
    refine ⟨?_, expRolesAux_pairwise rs 1 0, ?_⟩
    · simp [emptyTarget]
    · intro a ha b hb
      have hb1 := (expRolesAux_mem_pos rs 1 0 b hb).1
      have ha0 : a.rawPosition = 0 := by
        simp only [emptyTarget] at ha
        rw [List.mem_singleton] at ha
        rw [ha]
      show a.rawPosition < b.rawPosition
      omega
  simp only [fromGuild]
  rw [hsort]
  simp only [List.map_append, List.map_map]
  show List.map _ emptyTarget.roles ++ List.map _ (expRolesAux 1 0 rs) =
    [(("@everyone" : String), (0 : Nat), ("0" : String))] ++ rs.map roleProj
  refine congrArg₂ (fun x y : List (String × Nat × String) => x ++ y) ?_ ?_
  · rfl
  · exact expRolesAux_proj rs 1 0 hcanon

/-- C1 counterexample: the round trip does not reproduce the Template's
roles for every Template — extraction always emits the target's base role,
so provisioning the empty Template (zero roles) and extracting yields one
role, `@everyone`. -/
theorem provision_extract_roles_cex :
    (buildServerFromTemplate okPlatform emptyTarget emptyTemplate).err = none ∧
    (fromGuild (buildServerFromTemplate okPlatform emptyTarget emptyTemplate).guild).roles.map
      roleProj = [("@everyone", 0, "0")] ∧
    emptyTemplate.roles.map roleProj = [] := by
  decide

/-- C1 (amended): provisioning into the empty target a Template whose
category and channel names are already in sanitized form, whose channel
types are the canonical `"text"` / `"voice"` strings, whose overwrites carry
resolvable permission values, and whose roles are genuine non-base roles
(not flagged `isEveryone`, `refId` distinct from the target's base role id)
with canonical decimal permission strings, then extracting a Template from
the resulting live structure, reproduces the source category names, channel
names and types, and role names, colors and permission strings exactly —
except that the extracted role list additionally starts with the target's
base `@everyone` role; `refId` values are not compared. -/
theorem provision_extract_roundtrip (t : Template)
    (hr : ∀ r ∈ t.roles,
      skipRole "everyone-base" r = false ∧ canonicalPermStr r.permissions = true)
    (hcat : ∀ cat ∈ t.categories, sanitizeName (jsOrStr cat.name "Category") = cat.name)
    (hch : ∀ cat ∈ t.categories, ∀ ch ∈ cat.channels,
      sanitizeName (jsOrStr ch.name "channel") = ch.name ∧
      (ch.type = ChType.str "text" ∨ ch.type = ChType.str "voice") ∧ owsOk ch = true) :
    (buildServerFromTemplate okPlatform emptyTarget t).err = none ∧
    (fromGuild (buildServerFromTemplate okPlatform emptyTarget t).guild).categories.map projCat
      = t.categories.map projCat ∧
    (fromGuild (buildServerFromTemplate okPlatform emptyTarget t).guild).roles.map roleProj
      = ("@everyone", 0, "0") :: t.roles.map roleProj := by
  have hr' : ∀ r ∈ t.roles,
      skipRole emptyTarget.everyoneId r = false ∧ (normalizePermValue r.permissions).isSome := by
    intro r hrm
    obtain ⟨h1, h2⟩ := hr r hrm
    obtain ⟨n, hn, _⟩ := canonicalPermStr_spec r.permissions h2
    exact ⟨h1, by rw [hn]; rfl⟩
  have hows : ∀ cat ∈ t.categories, ∀ ch ∈ cat.channels, owsOk ch = true :=
    fun cat hc ch hch2 => (hch cat hc ch hch2).2.2
  obtain ⟨herr, hev, hroles, hchans⟩ := buildServer_ok t hr' hows
  refine ⟨herr, ?_, ?_⟩
  · exact fromGuild_cats_proj _ t.categories t.roles.length hchans hcat
      (fun cat hc ch hch2 => ⟨(hch cat hc ch hch2).1, (hch cat hc ch hch2).2.1⟩)
  · exact fromGuild_roles_proj _ t.roles hroles (fun r hrm => (hr r hrm).2)

/-- C1 witness: the amended round trip at a concrete normalized Template
with one role, one category and two channels. -/
theorem provision_extract_roundtrip_witness :
    (buildServerFromTemplate okPlatform emptyTarget roundTripTemplate).err = none ∧
    (fromGuild (buildServerFromTemplate okPlatform emptyTarget
      roundTripTemplate).guild).categories.map projCat
      = roundTripTemplate.categories.map projCat ∧
    (fromGuild (buildServerFromTemplate okPlatform emptyTarget
      roundTripTemplate).guild).roles.map roleProj
      = ("@everyone", 0, "0") :: roundTripTemplate.roles.map roleProj :=
  provision_extract_roundtrip roundTripTemplate (by decide) (by decide) (by decide)

end ChannelManager
